import Mathlib

set_option maxHeartbeats 1000000

/-!
Verification of the Action/Task orchestration core and the log-distribution
subsystem of the provider-console-api repository.

The Python sources are embedded shallowly:

* `application/model/task.py` — `TaskStatus`, `Task`, `Task.run`; the wrapped
  step callable is represented by `behavior`, the outcome of invoking it
  (normal return or a raised exception carrying its text).
* `application/data/action_repository.py` — the Mongo collection is a list of
  `(_id, document)` pairs; `update_one` by `_id` with array filters becomes
  `dbModify` / `update_task_status`.
* `application/service/task_manager.py` — `TaskManager`; state (`MState`)
  carries the store, the in-memory task registry, a clock standing for
  `datetime.utcnow()`, and a ghost `trace` of every persisted status write.
  Raised exceptions are modelled by returning the state reached so far
  together with `some e : Option PyErr`.
* `application/service/log_service.py` — `LogService`; Redis stream messages
  are association lists of field-value pairs, read results are given to the
  loop as a list (the prefix of blocking reads performed before the viewer
  stops consuming the generator).
-/

namespace App

/-- Status values from `TaskStatus` in `application/model/task.py`. -/
inductive TaskStatus where
  | notStarted
  | inProgress
  | completed
  | failed
deriving DecidableEq, Repr

instance {ε α : Type} [DecidableEq ε] [DecidableEq α] : DecidableEq (Except ε α) := fun x y =>
  match x, y with
  | Except.ok a, Except.ok b =>
    if h : a = b then isTrue (by rw [h]) else isFalse (fun hh => h (by injection hh))
  | Except.error a, Except.error b =>
    if h : a = b then isTrue (by rw [h]) else isFalse (fun hh => h (by injection hh))
  | Except.ok _, Except.error _ => isFalse (fun hh => Except.noConfusion hh)
  | Except.error _, Except.ok _ => isFalse (fun hh => Except.noConfusion hh)

/-- Runtime task object from `application/model/task.py`. `behavior` is the
outcome of invoking the wrapped step function with its bound arguments. -/
structure Task where
  task_id : String
  name : String
  description : String
  behavior : Except String Unit
  status : TaskStatus
  error_message : Option String
deriving DecidableEq, Repr

/-- `Task.run`: set `IN_PROGRESS`, invoke the step, then `COMPLETED` on normal
return or `FAILED` plus `error_message = str(e)` on a raised exception. The
handler catches every exception, so `run` itself is total. -/
def Task.run (t : Task) : Task :=
  let t1 := { t with status := TaskStatus.inProgress }
  match t1.behavior with
  | Except.ok _ => { t1 with status := TaskStatus.completed }
  | Except.error e => { t1 with status := TaskStatus.failed, error_message := some e }

/-- Task sub-document embedded in an action document. Fields that the created
document does not carry yet (`error_message`, times) are `none`. -/
structure TaskRecord where
  name : String
  description : String
  status : TaskStatus
  error_message : Option String
  start_time : Option Nat
  end_time : Option Nat
deriving DecidableEq, Repr

/-- Action document of the `actions` collection. -/
structure ActionDoc where
  name : String
  status : TaskStatus
  start_time : Option Nat
  end_time : Option Nat
  tasks : List TaskRecord
deriving DecidableEq, Repr

/-- Python dict lookup on an association list (first matching key). -/
def dictGet {α : Type} (d : List (String × α)) (k : String) : Option α :=
  match d.find? (fun p => p.1 == k) with
  | some p => some p.2
  | none => none

/-- Python dict assignment: overwrite the entry in place if the key exists,
append it otherwise. -/
def dictSet {α : Type} (d : List (String × α)) (k : String) (v : α) : List (String × α) :=
  if d.any (fun p => p.1 == k) then
    d.map (fun p => if p.1 == k then (k, v) else p)
  else d ++ [(k, v)]

/-- Python exception values that the embedded code can raise. -/
inductive PyErr where
  | valueError (msg : String)
  | runtimeError (msg : String)
  | keyError (key : String)
  | duplicateKey (key : String)
deriving DecidableEq, Repr

/-- `str(e)` for the exceptions above. -/
def PyErr.text : PyErr → String
  | PyErr.valueError m => m
  | PyErr.runtimeError m => m
  | PyErr.keyError k => "'" ++ k ++ "'"
  | PyErr.duplicateKey k => k

/-- Ghost record of one persisted status write: either a task-status update
through `update_task_status` or an action-status update through
`update_action_status`. -/
inductive WriteEvent where
  | taskW (name : String) (status : TaskStatus)
  | actionW (status : TaskStatus)
deriving DecidableEq, Repr

abbrev DB := List (String × ActionDoc)

/-- State threaded through `TaskManager`: the `actions` collection, the
in-memory registry `self.tasks`, a clock for `datetime.utcnow()`, and the
ghost trace of persisted status writes. -/
structure MState where
  db : DB
  tasks : List (String × List (String × Task))
  clock : Nat
  trace : List WriteEvent
deriving DecidableEq, Repr

namespace ActionRepository

/-- `actions_collection.find_one` keyed by `_id`. -/
def findOne (db : DB) (id : String) : Option ActionDoc :=
  dictGet db id

/-- `find_action` from `application/data/action_repository.py`: raises
`ValueError` when no document matches (the internal catch logs and re-raises,
leaving the exception unchanged). -/
def find_action (db : DB) (id : String) : Except PyErr ActionDoc :=
  match findOne db id with
  | some a => Except.ok a
  | none => Except.error (PyErr.valueError ("Action " ++ id ++ " not found"))

/-- `insert_action`: `insert_one` rejects a duplicate `_id`. -/
def insert_action (db : DB) (id : String) (doc : ActionDoc) : Except PyErr DB :=
  match dictGet db id with
  | some _ => Except.error (PyErr.duplicateKey id)
  | none => Except.ok (db ++ [(id, doc)])

/-- `update_one` filtered by `_id`: rewrite the matching documents with `g`
(a no-op when the id is absent). -/
def dbModify (db : DB) (id : String) (g : ActionDoc → ActionDoc) : DB :=
  db.map (fun p => if p.1 == id then (p.1, g p.2) else p)

/-- Field updates carried by the `$set` document that `_update_task_status`
assembles: `status` is always present, the rest only when provided. -/
structure TaskUpdate where
  status : TaskStatus
  error_message : Option String
  start_time : Option Nat
  end_time : Option Nat
deriving DecidableEq, Repr

/-- Apply a `$set` update to one task sub-document. -/
def applyTaskUpdate (u : TaskUpdate) (r : TaskRecord) : TaskRecord :=
  { r with
    status := u.status,
    error_message := match u.error_message with | some m => some m | none => r.error_message,
    start_time := match u.start_time with | some t => some t | none => r.start_time,
    end_time := match u.end_time with | some t => some t | none => r.end_time }

/-- `update_task_status`: update the task sub-documents selected by the
`elem.name` array filter inside the action document. -/
def update_task_status (db : DB) (id : String) (u : TaskUpdate) (task_name : String) : DB :=
  dbModify db id (fun a =>
    { a with tasks := a.tasks.map (fun r => if r.name == task_name then applyTaskUpdate u r else r) })

/-- `update_action_status`: `$set` the action's `status` field. -/
def update_action_status (db : DB) (id : String) (st : TaskStatus) : DB :=
  dbModify db id (fun a => { a with status := st })

/-- `update_action_time`: `$set` the provided time fields. -/
def update_action_time (db : DB) (id : String) (startT endT : Option Nat) : DB :=
  dbModify db id (fun a =>
    { a with
      start_time := match startT with | some t => some t | none => a.start_time,
      end_time := match endT with | some t => some t | none => a.end_time })

end ActionRepository

namespace TaskManager

/-- One `datetime.utcnow()` call consumed: the clock advances. -/
def tick (s : MState) : MState := { s with clock := s.clock + 1 }

/-- Persist a task-status update and record it in the ghost trace. -/
def writeTaskStatus (s : MState) (id task_name : String) (u : ActionRepository.TaskUpdate) : MState :=
  { s with
    db := ActionRepository.update_task_status s.db id u task_name,
    trace := s.trace ++ [WriteEvent.taskW task_name u.status] }

/-- Persist an action-status update and record it in the ghost trace. -/
def writeActionStatus (s : MState) (id : String) (st : TaskStatus) : MState :=
  { s with
    db := ActionRepository.update_action_status s.db id st,
    trace := s.trace ++ [WriteEvent.actionW st] }

/-- The status-rollup computation in the `else` branch of
`_update_action_status` (task_manager.py lines 188-200). -/
def rollup (statuses : List TaskStatus) : TaskStatus :=
  if statuses.contains TaskStatus.failed then TaskStatus.failed
  else if statuses.contains TaskStatus.inProgress then TaskStatus.inProgress
  else if statuses.all (fun st => st == TaskStatus.completed) then TaskStatus.completed
  else TaskStatus.notStarted

/-- `_update_action_status`: with an explicit status, write it; otherwise
re-read the document (raising `ValueError` when absent) and write the rollup
of its task statuses. -/
def update_action_status (s : MState) (id : String) (st : Option TaskStatus) : MState × Option PyErr :=
  match st with
  | some v => (writeActionStatus s id v, none)
  | none =>
    match ActionRepository.find_action s.db id with
    | Except.error e => (s, some e)
    | Except.ok a => (writeActionStatus s id (rollup (a.tasks.map (fun r => r.status))), none)

/-- The `$set` document assembled by `_update_task_status`: `error_message`
is included only when truthy, so an empty string is dropped. -/
def mkTaskUpdate (st : TaskStatus) (error_message : Option String) (startT endT : Option Nat) :
    ActionRepository.TaskUpdate :=
  { status := st,
    error_message := match error_message with
      | some m => if m == "" then none else some m
      | none => none,
    start_time := startT,
    end_time := endT }

/-- `_update_task_status`: persist the task update, then recompute and persist
the action status. -/
def update_task_status (s : MState) (id task_name : String) (st : TaskStatus)
    (error_message : Option String) (startT endT : Option Nat) : MState × Option PyErr :=
  let s1 := writeTaskStatus s id task_name (mkTaskUpdate st error_message startT endT)
  update_action_status s1 id none

/-- `_update_action_time`: a no-op when neither time is provided. -/
def update_action_time (s : MState) (id : String) (startT endT : Option Nat) : MState :=
  match startT, endT with
  | none, none => s
  | _, _ => { s with db := ActionRepository.update_action_time s.db id startT endT }

/-- The task sub-document that `create_action` builds for one task. -/
def initRecord (t : Task) : TaskRecord :=
  { name := t.name, description := t.description, status := TaskStatus.notStarted,
    error_message := none, start_time := none, end_time := none }

/-- The dict comprehension registering the runtime tasks by name. -/
def buildRegistry (ts : List Task) : List (String × Task) :=
  ts.foldl (fun d t => dictSet d t.name t) []

/-- `create_action`: persist the skeleton document and register the runtime
task objects under the action id. -/
def create_action (s : MState) (action_id action_name : String) (ts : List Task) :
    MState × Option PyErr :=
  let doc : ActionDoc :=
    { name := action_name, status := TaskStatus.notStarted,
      start_time := none, end_time := none, tasks := ts.map initRecord }
  match ActionRepository.insert_action s.db action_id doc with
  | Except.error e => (s, some e)
  | Except.ok db1 =>
    ({ s with db := db1, tasks := dictSet s.tasks action_id (buildRegistry ts) }, none)

/-- `_run_task`: mark the task `IN_PROGRESS`, run it, persist the outcome;
the `except` block converts any exception from the `try` body into a
`FAILED` write carrying `str(e)`. -/
def run_task (s : MState) (id task_name : String) : MState × Option PyErr :=
  let startT := s.clock
  let s1 := tick s
  match update_task_status s1 id task_name TaskStatus.inProgress none (some startT) none with
  | (s2, some e) => (s2, some e)
  | (s2, none) =>
    let tryRes : MState × Option PyErr :=
      match dictGet s2.tasks id with
      | none => (s2, some (PyErr.keyError id))
      | some reg =>
        match dictGet reg task_name with
        | none => (s2, some (PyErr.keyError task_name))
        | some t =>
          let t2 := Task.run t
          let s3 := { s2 with tasks := dictSet s2.tasks id (dictSet reg task_name t2) }
          let endT := s3.clock
          let s4 := tick s3
          let st := if t2.status == TaskStatus.completed then TaskStatus.completed
                    else TaskStatus.failed
          update_task_status s4 id task_name st t2.error_message none (some endT)
    match tryRes with
    | (s5, none) => (s5, none)
    | (s5, some e) =>
      let endT := s5.clock
      let s6 := tick s5
      update_task_status s6 id task_name TaskStatus.failed (some (PyErr.text e)) none (some endT)

/-- The `for task_data in action tasks` loop of `run_action`, iterating over
the task names of the snapshot read at entry; fail-fast on a failed task. -/
def run_loop (s : MState) (id : String) (names : List String) : MState × Option PyErr :=
  match names with
  | [] => (s, none)
  | n :: rest =>
    match run_task s id n with
    | (s1, some e) => (s1, some e)
    | (s1, none) =>
      match dictGet s1.tasks id with
      | none => (s1, some (PyErr.keyError id))
      | some reg =>
        match dictGet reg n with
        | none => (s1, some (PyErr.keyError n))
        | some t =>
          if t.status == TaskStatus.failed then
            (writeActionStatus s1 id TaskStatus.failed, none)
          else
            run_loop s1 id rest

/-- `run_action`: look the action up, set `start_time`, run the loop, write
`COMPLETED` when every registered runtime task completed, set `end_time`. -/
def run_action (s : MState) (id : String) : MState × Option PyErr :=
  match ActionRepository.find_action s.db id with
  | Except.error e => (s, some e)
  | Except.ok a =>
    let startT := s.clock
    let s1 := tick s
    let s2 := update_action_time s1 id (some startT) none
    match run_loop s2 id (a.tasks.map (fun r => r.name)) with
    | (s3, some e) => (s3, some e)
    | (s3, none) =>
      match dictGet s3.tasks id with
      | none => (s3, some (PyErr.keyError id))
      | some reg =>
        let s4 := if (reg.map (fun p => p.2)).all (fun t => t.status == TaskStatus.completed)
                  then writeActionStatus s3 id TaskStatus.completed else s3
        let endT := s4.clock
        let s5 := tick s4
        (update_action_time s5 id none (some endT), none)

/-- One entry of the task list returned by `get_action_status`. -/
structure TaskView where
  title : String
  description : String
  status : TaskStatus
  start_time : Option Nat
  end_time : Option Nat
deriving DecidableEq, Repr

/-- The dictionary returned by `get_action_status`. -/
structure ActionView where
  id : String
  name : String
  status : TaskStatus
  start_time : Option Nat
  end_time : Option Nat
  tasks : List TaskView
deriving DecidableEq, Repr

/-- The `try` body of `get_action_status`. -/
def get_action_status_body (s : MState) (id : String) : Except PyErr ActionView :=
  match ActionRepository.find_action s.db id with
  | Except.error e => Except.error e
  | Except.ok a =>
    Except.ok
      { id := id, name := a.name, status := a.status,
        start_time := a.start_time, end_time := a.end_time,
        tasks := a.tasks.map (fun r =>
          { title := r.name, description := r.description, status := r.status,
            start_time := r.start_time, end_time := r.end_time }) }

/-- `get_action_status`: a `ValueError` is re-raised unchanged, any other
exception is wrapped into a `RuntimeError`. -/
def get_action_status (s : MState) (id : String) : Except PyErr ActionView :=
  match get_action_status_body s id with
  | Except.ok v => Except.ok v
  | Except.error (PyErr.valueError m) => Except.error (PyErr.valueError m)
  | Except.error e =>
    Except.error (PyErr.runtimeError
      ("An error occurred while fetching action status: " ++ PyErr.text e))

end TaskManager

namespace LogService

/-- A Redis stream entry body: field-value pairs, as redis-py returns them. -/
abbrev Msg := List (String × String)

/-- Membership test for the Python `in` operator on a message dict. -/
def hasKey (m : Msg) (k : String) : Bool := m.any (fun p => p.1 == k)

/-- A formatted log line, as stored in the archive and as emitted to viewers. -/
structure LogLine where
  type : String
  message : String
deriving DecidableEq, Repr

/-- `_process_message`: skip `init` entries, map `stdout`/`stderr` payloads to
a formatted line, skip everything else. -/
def process_message (m : Msg) : Option LogLine :=
  if hasKey m "init" then none
  else
    match dictGet m "stdout" with
    | some v => some { type := "stdout", message := v }
    | none =>
      match dictGet m "stderr" with
      | some v => some { type := "stderr", message := v }
      | none => none

/-- Events the live stream generator yields to the viewer. -/
inductive Event where
  | data (line : LogLine)
  | heartbeat
  | errorEv (msg : String)
deriving DecidableEq, Repr

/-- The per-message body of the read loop in the case where the
acknowledgement call succeeds: acknowledge and yield exactly when
`_process_message` returns a log entry. The first component lists the
yielded events, the second the acknowledged message ids. `msgStep` below is
the general version whose acknowledgement may raise. -/
def msgOutput (p : String × Msg) : List Event × List String :=
  match process_message p.2 with
  | some line => ([Event.data line], [p.1])
  | none => ([], [])

/-- Result of one `xreadgroup` call: a list of streams, each carrying a list
of `(message_id, message)` pairs. -/
abbrev Entries := List (String × List (String × Msg))

/-- Outcome of one blocking `xreadgroup` call: a raised exception, or the
returned entries (`entries []` for an empty or `None` result). -/
inductive ReadRes where
  | err (msg : String)
  | entries (es : Entries)
deriving DecidableEq, Repr

/-- The loop body for one `(message_id, message)` pair, with `ackBeh` giving
the outcome of the `xack` call issued by `_acknowledge_message` for each
message id: yielded events, acknowledged ids, and the text of the exception
raised by the acknowledgement when it fails. The acknowledgement precedes
the yield in the source, so a failing acknowledgement yields no data event
for its own entry. -/
def msgStep (ackBeh : String → Except String Unit) (p : String × Msg) :
    List Event × List String × Option String :=
  match process_message p.2 with
  | none => ([], [], none)
  | some line =>
    match ackBeh p.1 with
    | Except.ok _ => ([Event.data line], [p.1], none)
    | Except.error e => ([], [], some e)

/-- The inner `for message_id, message in messages` loop, stopping at the
first raised acknowledgement and keeping the events yielded before it. -/
def msgsStep (ackBeh : String → Except String Unit) :
    List (String × Msg) → List Event × List String × Option String
  | [] => ([], [], none)
  | p :: ps =>
    match msgStep ackBeh p with
    | (evs, acks, some e) => (evs, acks, some e)
    | (evs, acks, none) =>
      match msgsStep ackBeh ps with
      | (evs2, acks2, err2) => (evs ++ evs2, acks ++ acks2, err2)

/-- The outer `for stream, messages in entries` loop, stopping at the first
raised acknowledgement. -/
def entriesStep (ackBeh : String → Except String Unit) :
    Entries → List Event × List String × Option String
  | [] => ([], [], none)
  | sm :: sms =>
    match msgsStep ackBeh sm.2 with
    | (evs, acks, some e) => (evs, acks, some e)
    | (evs, acks, none) =>
      match entriesStep ackBeh sms with
      | (evs2, acks2, err2) => (evs ++ evs2, acks ++ acks2, err2)

/-- One iteration of the `while True` loop of `get_redis_logs`: yielded
events, acknowledged ids, and whether the loop continues. The `except`
block of the source covers both the `xreadgroup` call and the
`_acknowledge_message` calls inside the nested loops, so an acknowledgement
that raises mid-batch makes the iteration emit the data events already
yielded, then the terminal error event, and break. -/
def streamStep (ackBeh : String → Except String Unit) (r : ReadRes) :
    List Event × List String × Bool :=
  match r with
  | ReadRes.err e => ([Event.errorEv ("Error reading stream: " ++ e)], [], false)
  | ReadRes.entries [] => ([Event.heartbeat], [], true)
  | ReadRes.entries es =>
    match entriesStep ackBeh es with
    | (evs, acks, none) => (evs, acks, true)
    | (evs, acks, some e) =>
      (evs ++ [Event.errorEv ("Error reading stream: " ++ e)], acks, false)

/-- The read loop of `get_redis_logs` over the sequence of read outcomes the
broker produces while the viewer keeps consuming the generator. -/
def get_redis_logs_loop (ackBeh : String → Except String Unit) :
    List ReadRes → List Event × List String
  | [] => ([], [])
  | r :: rs =>
    match streamStep ackBeh r with
    | (evs, acks, false) => (evs, acks)
    | (evs, acks, true) =>
      match get_redis_logs_loop ackBeh rs with
      | (evs2, acks2) => (evs ++ evs2, acks ++ acks2)

/-- Shapes of entries this repository appends to the broker stream: the
priming entry from `_initialize_stream` and the payload entries appended by
`ssh_utils.run_ssh_command` and `provider_service`. -/
inductive BrokerEntry where
  | initEntry
  | stdoutLine (line : String)
  | stderrLine (line : String)
deriving DecidableEq, Repr

/-- The message dict each broker entry shape is appended as. -/
def BrokerEntry.toMsg : BrokerEntry → Msg
  | BrokerEntry.initEntry => [("init", "true")]
  | BrokerEntry.stdoutLine l => [("stdout", l)]
  | BrokerEntry.stderrLine l => [("stderr", l)]

/-- Archived log document of the `logs` collection, keyed by `task_id`; the
`logs` field is absent until the producer pushes the first lines. -/
structure LogDoc where
  task_id : String
  logs : Option (List LogLine)
deriving DecidableEq, Repr

/-- `get_mongo_logs`: read the archive document and return its lines in
stored order, or an empty list when the document or its `logs` field is
missing. -/
def get_mongo_logs (ldb : List (String × LogDoc)) (task_id : String) : List LogLine :=
  match dictGet ldb task_id with
  | none => []
  | some d =>
    match d.logs with
    | none => []
    | some entries => entries.map (fun e => { type := e.type, message := e.message })

end LogService

/-- Projection of a task sub-document to the fields the specification's
final-state properties talk about: name, status, error message. -/
def projT (r : TaskRecord) : String × TaskStatus × Option String :=
  (r.name, r.status, r.error_message)

/-- The action-status values of a write trace, in write order. -/
def actionWrites (tr : List WriteEvent) : List TaskStatus :=
  tr.filterMap (fun w => match w with
    | WriteEvent.actionW st => some st
    | WriteEvent.taskW _ _ => none)

/-- The status values written for the task named `n`, in write order. -/
def taskWrites (tr : List WriteEvent) (n : String) : List TaskStatus :=
  tr.filterMap (fun w => match w with
    | WriteEvent.taskW m st => if m == n then some st else none
    | WriteEvent.actionW _ => none)

/-- Forward motion between two successive persisted values of one status, as
the claim words it: never from `IN_PROGRESS` back to `NOT_STARTED`, and never
away from `COMPLETED` or `FAILED`. -/
def forwardOk : TaskStatus → TaskStatus → Bool
  | TaskStatus.inProgress, TaskStatus.notStarted => false
  | TaskStatus.completed, b => b == TaskStatus.completed
  | TaskStatus.failed, b => b == TaskStatus.failed
  | _, _ => true

/-- The terminal half of forward motion: `COMPLETED` and `FAILED` are never
left once written. -/
def terminalOk : TaskStatus → TaskStatus → Bool
  | TaskStatus.completed, b => b == TaskStatus.completed
  | TaskStatus.failed, b => b == TaskStatus.failed
  | _, _ => true

/-- `chainOk f l` checks `f` on every pair of successive elements of `l`. -/
def chainOk (f : TaskStatus → TaskStatus → Bool) : List TaskStatus → Bool
  | [] => true
  | [_] => true
  | a :: b :: rest => f a b && chainOk f (b :: rest)

/-- Expected `(name, status, error_message)` projections of the task
sub-documents after one `run_action` over tasks with the given behaviors,
assuming fresh tasks: completed until the first failing task, which records
its error text (dropped when empty), everything after it untouched. -/
def expProj : List Task → List (String × TaskStatus × Option String)
  | [] => []
  | t :: rest =>
    match t.behavior with
    | Except.ok _ => (t.name, TaskStatus.completed, none) :: expProj rest
    | Except.error e =>
      (t.name, TaskStatus.failed, if e == "" then none else some e)
        :: rest.map (fun u => (u.name, TaskStatus.notStarted, none))

/-- Expected action status field at loop exit (before the final all-completed
check): `dflt` when no task runs, the last rollup value otherwise. -/
def expStatus (dflt : TaskStatus) : List Task → TaskStatus
  | [] => dflt
  | t :: rest =>
    match t.behavior with
    | Except.ok _ =>
      expStatus (if rest.isEmpty then TaskStatus.completed else TaskStatus.notStarted) rest
    | Except.error _ => TaskStatus.failed

/-- Expected ghost write trace of the loop of one `run_action`. -/
def expTrace : List Task → List WriteEvent
  | [] => []
  | t :: rest =>
    match t.behavior with
    | Except.ok _ =>
      WriteEvent.taskW t.name TaskStatus.inProgress
        :: WriteEvent.actionW TaskStatus.inProgress
        :: WriteEvent.taskW t.name TaskStatus.completed
        :: WriteEvent.actionW (if rest.isEmpty then TaskStatus.completed else TaskStatus.notStarted)
        :: expTrace rest
    | Except.error _ =>
      [WriteEvent.taskW t.name TaskStatus.inProgress,
       WriteEvent.actionW TaskStatus.inProgress,
       WriteEvent.taskW t.name TaskStatus.failed,
       WriteEvent.actionW TaskStatus.failed,
       WriteEvent.actionW TaskStatus.failed]

/-- Expected runtime registry contents after the loop: tasks up to and
including the first failing one have been run, the rest are untouched. -/
def expReg : List Task → List (String × Task)
  | [] => []
  | t :: rest =>
    match t.behavior with
    | Except.ok _ => (t.name, Task.run t) :: expReg rest
    | Except.error _ => (t.name, Task.run t) :: rest.map (fun u => (u.name, u))

/-- Whether every task's step returns normally. -/
def allOk (ts : List Task) : Bool :=
  ts.all (fun t => match t.behavior with | Except.ok _ => true | Except.error _ => false)

/-- Whether a stream event is a data event. -/
def LogService.Event.isData : LogService.Event → Bool
  | LogService.Event.data _ => true
  | _ => false

/-- Whether a stream event is the empty heartbeat event. -/
def LogService.Event.isHeartbeat : LogService.Event → Bool
  | LogService.Event.heartbeat => true
  | _ => false

/-- Whether a stream event is the terminal error event. -/
def LogService.Event.isError : LogService.Event → Bool
  | LogService.Event.errorEv _ => true
  | _ => false

/-- Whether an event list holds only one kind of event: all data, all
heartbeat, or all error events. -/
def LogService.oneKind (evs : List LogService.Event) : Bool :=
  evs.all LogService.Event.isData || evs.all LogService.Event.isHeartbeat ||
    evs.all LogService.Event.isError

/-- Fixture: an acknowledgement behaviour whose `xack` raises on message id
1-2 and succeeds elsewhere. -/
def cexAckBeh : String → Except String Unit :=
  fun mid => if mid == "1-2" then Except.error "boom" else Except.ok ()

/-- Fixture: one read returning two stdout payload entries, the second of
which is the one whose acknowledgement raises. -/
def cexEntries : LogService.Entries :=
  [("task:x", [("1-1", [("stdout", "a")]), ("1-2", [("stdout", "b")])])]

/-- Fixture: the empty manager state. -/
def cexState : MState := { db := [], tasks := [], clock := 0, trace := [] }

/-- Fixture: a fresh task whose step returns normally. -/
def cexTask1 : Task :=
  { task_id := "id1", name := "t1", description := "", behavior := Except.ok (),
    status := TaskStatus.notStarted, error_message := none }

/-- Fixture: a second fresh task whose step returns normally. -/
def cexTask2 : Task :=
  { task_id := "id2", name := "t2", description := "", behavior := Except.ok (),
    status := TaskStatus.notStarted, error_message := none }

/-- Fixture: the state after creating and running an action with the two
successful tasks above. -/
def cexRun : MState :=
  (TaskManager.run_action (TaskManager.create_action cexState "a" "act" [cexTask1, cexTask2]).1 "a").1

/-- Fixture: a fresh task named init whose step returns normally. -/
def wTask1 : Task :=
  { task_id := "i1", name := "init", description := "", behavior := Except.ok (),
    status := TaskStatus.notStarted, error_message := none }

/-- Fixture: a fresh task named configure whose step raises an error. -/
def wTask2 : Task :=
  { task_id := "i2", name := "configure", description := "", behavior := Except.error "disk full",
    status := TaskStatus.notStarted, error_message := none }

/-- Fixture: a fresh task named verify whose step returns normally. -/
def wTask3 : Task :=
  { task_id := "i3", name := "verify", description := "", behavior := Except.ok (),
    status := TaskStatus.notStarted, error_message := none }

/-! Helper lemmas about the dictionary and store primitives. -/

theorem dictGet_cons {α : Type} (a : String) (b : α) (tl : List (String × α)) (k : String) :
    dictGet ((a, b) :: tl) k = if a == k then some b else dictGet tl k := by
  by_cases h : (a == k) = true
  · simp [dictGet, List.find?_cons_of_pos, h]
  · rw [if_neg h]
    unfold dictGet
    rw [List.find?_cons_of_neg]
    simpa using h

theorem dictGet_none_of_forall {α : Type} (d : List (String × α)) (k : String)
    (h : ∀ p ∈ d, p.1 ≠ k) : dictGet d k = none := by
  unfold dictGet
  have hf : d.find? (fun p => p.1 == k) = none := by
    rw [List.find?_eq_none]
    intro p hp
    simp [h p hp]
  rw [hf]

theorem forall_of_dictGet_none {α : Type} (d : List (String × α)) (k : String)
    (h : dictGet d k = none) : ∀ p ∈ d, p.1 ≠ k := by
  intro p hp hk
  unfold dictGet at h
  rcases hf : d.find? (fun q => q.1 == k) with _ | q
  · rw [List.find?_eq_none] at hf
    have hpk := hf p hp
    simp [hk] at hpk
  · rw [hf] at h
    simp at h

theorem map_keyupdate_eq {α : Type} (l : List (String × α)) (k : String)
    (f : String × α → String × α) (h : ∀ p ∈ l, p.1 ≠ k) :
    l.map (fun p => if p.1 == k then f p else p) = l := by
  induction l with
  | nil => rfl
  | cons hd tl ih =>
    have h1 : ¬(hd.1 == k) = true := by
      simp only [beq_iff_eq]
      exact h hd (List.mem_cons_self hd tl)
    simp only [List.map_cons, if_neg h1, ih (fun p hp => h p (List.mem_cons_of_mem hd hp))]

theorem dictGet_append_singleton {α : Type} (base : List (String × α)) (k : String) (v : α)
    (h : ∀ p ∈ base, p.1 ≠ k) : dictGet (base ++ [(k, v)]) k = some v := by
  induction base with
  | nil => simp [dictGet_cons]
  | cons hd tl ih =>
    rcases hd with ⟨a, b⟩
    rw [List.cons_append, dictGet_cons, if_neg]
    · exact ih (fun p hp => h p (List.mem_cons_of_mem _ hp))
    · simp only [beq_iff_eq]
      exact h (a, b) (List.mem_cons_self _ tl)

theorem dictGet_append_of_none {α : Type} (d e : List (String × α)) (k : String)
    (h : dictGet d k = none) : dictGet (d ++ e) k = dictGet e k := by
  induction d with
  | nil => simp
  | cons hd tl ih =>
    rcases hd with ⟨a, b⟩
    rw [dictGet_cons] at h
    rw [List.cons_append, dictGet_cons]
    by_cases ha : (a == k) = true
    · rw [if_pos ha] at h
      cases h
    · rw [if_neg ha] at h
      rw [if_neg ha]
      exact ih h

theorem dictGet_map_set {α : Type} (d : List (String × α)) (k : String) (v : α)
    (hany : d.any (fun p => p.1 == k) = true) :
    dictGet (d.map (fun p => if p.1 == k then (k, v) else p)) k = some v := by
  induction d with
  | nil => cases hany
  | cons hd tl ih =>
    by_cases h : (hd.1 == k) = true
    · simp only [List.map_cons, if_pos h, dictGet_cons, beq_self_eq_true, if_pos]
    · simp only [List.map_cons, if_neg h]
      have hd2 : hd = (hd.1, hd.2) := rfl
      rw [hd2, dictGet_cons, if_neg h]
      apply ih
      simp only [List.any_cons, h, Bool.false_or] at hany
      exact hany

theorem not_any_forall {α : Type} (d : List (String × α)) (k : String)
    (h : ¬ d.any (fun p => p.1 == k) = true) : ∀ p ∈ d, p.1 ≠ k := by
  intro p hp hk
  apply h
  rw [List.any_eq_true]
  exact ⟨p, hp, by simp [hk]⟩

theorem dictGet_dictSet_self {α : Type} (d : List (String × α)) (k : String) (v : α) :
    dictGet (dictSet d k v) k = some v := by
  unfold dictSet
  by_cases hany : d.any (fun p => p.1 == k) = true
  · rw [if_pos hany]
    exact dictGet_map_set d k v hany
  · rw [if_neg hany]
    exact dictGet_append_singleton d k v (not_any_forall d k hany)

theorem dictSet_no_key {α : Type} (d : List (String × α)) (k : String) (v : α)
    (h : ∀ p ∈ d, p.1 ≠ k) : dictSet d k v = d ++ [(k, v)] := by
  unfold dictSet
  rw [if_neg]
  intro hany
  rw [List.any_eq_true] at hany
  rcases hany with ⟨p, hp, hpk⟩
  exact h p hp (by simpa using hpk)

theorem dictSet_middle {α : Type} (d1 d2 : List (String × α)) (k : String) (v w : α)
    (h1 : ∀ p ∈ d1, p.1 ≠ k) (h2 : ∀ p ∈ d2, p.1 ≠ k) :
    dictSet (d1 ++ (k, v) :: d2) k w = d1 ++ (k, w) :: d2 := by
  unfold dictSet
  rw [if_pos]
  · rw [List.map_append, map_keyupdate_eq d1 k _ h1, List.map_cons]
    simp only [beq_self_eq_true, if_pos]
    rw [map_keyupdate_eq d2 k _ h2]
  · rw [List.any_eq_true]
    exact ⟨(k, v), by simp, by simp⟩

theorem map_set_idem {α : Type} (d : List (String × α)) (k : String) (v w : α) :
    (d.map (fun p => if p.1 == k then (k, v) else p)).map
        (fun p => if p.1 == k then (k, w) else p)
      = d.map (fun p => if p.1 == k then (k, w) else p) := by
  induction d with
  | nil => rfl
  | cons hd tl ih =>
    by_cases h : (hd.1 == k) = true
    · simp only [List.map_cons, if_pos h, beq_self_eq_true, if_pos, ih]
    · simp only [List.map_cons, if_neg h, ih]

theorem any_map_set {α : Type} (d : List (String × α)) (k : String) (v : α)
    (hany : d.any (fun p => p.1 == k) = true) :
    (d.map (fun p => if p.1 == k then (k, v) else p)).any (fun p => p.1 == k) = true := by
  rw [List.any_eq_true] at hany ⊢
  rcases hany with ⟨p, hp, hpk⟩
  refine ⟨if p.1 == k then (k, v) else p, List.mem_map_of_mem _ hp, ?_⟩
  rw [if_pos hpk]
  simp

theorem dictSet_dictSet {α : Type} (d : List (String × α)) (k : String) (v w : α) :
    dictSet (dictSet d k v) k w = dictSet d k w := by
  by_cases hany : d.any (fun p => p.1 == k) = true
  · have e1 : dictSet d k v = d.map (fun p => if p.1 == k then (k, v) else p) := by
      unfold dictSet; rw [if_pos hany]
    have e2 : dictSet d k w = d.map (fun p => if p.1 == k then (k, w) else p) := by
      unfold dictSet; rw [if_pos hany]
    have e3 : dictSet (d.map (fun p => if p.1 == k then (k, v) else p)) k w
        = (d.map (fun p => if p.1 == k then (k, v) else p)).map
            (fun p => if p.1 == k then (k, w) else p) := by
      unfold dictSet; rw [if_pos (any_map_set d k v hany)]
    rw [e1, e3, map_set_idem, ← e2]
  · have h := not_any_forall d k hany
    rw [dictSet_no_key d k v h]
    rw [dictSet_middle d [] k v w h (fun p hp => absurd hp (List.not_mem_nil p))]
    rw [dictSet_no_key d k w h]

theorem findOne_append_singleton (base : DB) (aid : String) (doc : ActionDoc)
    (h : ∀ p ∈ base, p.1 ≠ aid) :
    ActionRepository.findOne (base ++ [(aid, doc)]) aid = some doc := by
  unfold ActionRepository.findOne
  exact dictGet_append_singleton base aid doc h

theorem dbModify_append_singleton (base : DB) (aid : String) (doc : ActionDoc)
    (g : ActionDoc → ActionDoc) (h : ∀ p ∈ base, p.1 ≠ aid) :
    ActionRepository.dbModify (base ++ [(aid, doc)]) aid g = base ++ [(aid, g doc)] := by
  unfold ActionRepository.dbModify
  rw [List.map_append]
  congr 1
  · exact map_keyupdate_eq base aid _ h
  · simp

theorem map_if_key_eq {α : Type} (l : List α) (key : α → String) (k : String) (f : α → α)
    (h : ∀ x ∈ l, key x ≠ k) :
    l.map (fun x => if key x == k then f x else x) = l := by
  induction l with
  | nil => rfl
  | cons hd tl ih =>
    have h1 : ¬(key hd == k) = true := by
      simp only [beq_iff_eq]
      exact h hd (List.mem_cons_self hd tl)
    simp only [List.map_cons, if_neg h1, ih (fun x hx => h x (List.mem_cons_of_mem hd hx))]

theorem map_record_update (dRecs tailRecs : List TaskRecord) (r : TaskRecord) (n : String)
    (f : TaskRecord → TaskRecord)
    (hr : r.name = n) (hn1 : ∀ x ∈ dRecs, x.name ≠ n) (hn2 : ∀ x ∈ tailRecs, x.name ≠ n) :
    (dRecs ++ r :: tailRecs).map (fun x => if x.name == n then f x else x)
      = dRecs ++ f r :: tailRecs := by
  rw [List.map_append, List.map_cons]
  rw [map_if_key_eq dRecs (fun x => x.name) n f hn1]
  rw [map_if_key_eq tailRecs (fun x => x.name) n f hn2]
  rw [if_pos (by simp [hr])]

theorem contains_eq_false_of_not_mem (l : List TaskStatus) (a : TaskStatus) (h : a ∉ l) :
    l.contains a = false := by
  rw [← Bool.not_eq_true]
  intro hc
  exact h (by simpa using hc)

theorem contains_eq_true_of_mem (l : List TaskStatus) (a : TaskStatus) (h : a ∈ l) :
    l.contains a = true := by
  simpa using h

theorem rollup_eq_failed_mem (l : List TaskStatus) (h : TaskStatus.failed ∈ l) :
    TaskManager.rollup l = TaskStatus.failed := by
  unfold TaskManager.rollup
  rw [contains_eq_true_of_mem _ _ h]
  simp

theorem rollup_eq_inProgress (cs ns : List TaskStatus)
    (h1 : ∀ c ∈ cs, c = TaskStatus.completed) (h2 : ∀ c ∈ ns, c = TaskStatus.notStarted) :
    TaskManager.rollup (cs ++ TaskStatus.inProgress :: ns) = TaskStatus.inProgress := by
  have hf : TaskStatus.failed ∉ cs ++ TaskStatus.inProgress :: ns := by
    intro hmem
    rcases List.mem_append.1 hmem with hc | hc
    · exact absurd (h1 _ hc) (by decide)
    · rcases List.mem_cons.1 hc with hh | hh
      · exact absurd hh (by decide)
      · exact absurd (h2 _ hh) (by decide)
  have hip : TaskStatus.inProgress ∈ cs ++ TaskStatus.inProgress :: ns :=
    List.mem_append_right _ (List.mem_cons_self _ _)
  unfold TaskManager.rollup
  rw [contains_eq_false_of_not_mem _ _ hf, contains_eq_true_of_mem _ _ hip]
  simp

theorem rollup_eq_after_completed (cs ns : List TaskStatus)
    (h1 : ∀ c ∈ cs, c = TaskStatus.completed) (h2 : ∀ c ∈ ns, c = TaskStatus.notStarted) :
    TaskManager.rollup (cs ++ TaskStatus.completed :: ns)
      = if ns.isEmpty then TaskStatus.completed else TaskStatus.notStarted := by
  have hf : TaskStatus.failed ∉ cs ++ TaskStatus.completed :: ns := by
    intro hmem
    rcases List.mem_append.1 hmem with hc | hc
    · exact absurd (h1 _ hc) (by decide)
    · rcases List.mem_cons.1 hc with hh | hh
      · exact absurd hh (by decide)
      · exact absurd (h2 _ hh) (by decide)
  have hip : TaskStatus.inProgress ∉ cs ++ TaskStatus.completed :: ns := by
    intro hmem
    rcases List.mem_append.1 hmem with hc | hc
    · exact absurd (h1 _ hc) (by decide)
    · rcases List.mem_cons.1 hc with hh | hh
      · exact absurd hh (by decide)
      · exact absurd (h2 _ hh) (by decide)
  unfold TaskManager.rollup
  rw [contains_eq_false_of_not_mem _ _ hf, contains_eq_false_of_not_mem _ _ hip]
  cases ns with
  | nil =>
    have hall : ((cs ++ [TaskStatus.completed]).all (fun st => st == TaskStatus.completed)) = true := by
      rw [List.all_eq_true]
      intro x hx
      rcases List.mem_append.1 hx with hc | hc
      · simp [h1 _ hc]
      · rcases List.mem_cons.1 hc with hh | hh
        · simp [hh]
        · exact absurd hh (List.not_mem_nil x)
    rw [hall]
    simp
  | cons m ms =>
    have hall : ((cs ++ TaskStatus.completed :: m :: ms).all
        (fun st => st == TaskStatus.completed)) = false := by
      rw [← Bool.not_eq_true, List.all_eq_true]
      intro hallm
      have hm := hallm m (List.mem_append_right _ (List.mem_cons_of_mem _ (List.mem_cons_self _ _)))
      rw [h2 m (List.mem_cons_self _ _)] at hm
      simp at hm
    rw [hall]
    simp

theorem update_task_status_step
    (base : DB) (aid : String) (doc : ActionDoc) (s : MState)
    (dRecs tailRecs : List TaskRecord) (r : TaskRecord) (n : String)
    (st : TaskStatus) (em : Option String) (startT endT : Option Nat)
    (hbase : ∀ p ∈ base, p.1 ≠ aid)
    (hdb : s.db = base ++ [(aid, doc)])
    (htasks : doc.tasks = dRecs ++ r :: tailRecs)
    (hr : r.name = n)
    (hn1 : ∀ x ∈ dRecs, x.name ≠ n)
    (hn2 : ∀ x ∈ tailRecs, x.name ≠ n) :
    TaskManager.update_task_status s aid n st em startT endT
      = ({ s with
            db := base ++ [(aid,
              { doc with
                status := TaskManager.rollup ((dRecs ++
                    ActionRepository.applyTaskUpdate (TaskManager.mkTaskUpdate st em startT endT) r
                      :: tailRecs).map TaskRecord.status),
                tasks := dRecs ++
                    ActionRepository.applyTaskUpdate (TaskManager.mkTaskUpdate st em startT endT) r
                      :: tailRecs })],
            trace := s.trace ++ [WriteEvent.taskW n st,
              WriteEvent.actionW (TaskManager.rollup ((dRecs ++
                ActionRepository.applyTaskUpdate (TaskManager.mkTaskUpdate st em startT endT) r
                  :: tailRecs).map TaskRecord.status))] }, none) := by
  have hmap : doc.tasks.map (fun x => if x.name == n then
      ActionRepository.applyTaskUpdate (TaskManager.mkTaskUpdate st em startT endT) x else x)
      = dRecs ++ ActionRepository.applyTaskUpdate (TaskManager.mkTaskUpdate st em startT endT) r
          :: tailRecs := by
    rw [htasks]
    exact map_record_update dRecs tailRecs r n _ hr hn1 hn2
  unfold TaskManager.update_task_status TaskManager.writeTaskStatus
    ActionRepository.update_task_status
  rw [hdb, dbModify_append_singleton base aid doc _ hbase]
  rw [hmap]
  unfold TaskManager.update_action_status ActionRepository.find_action
  dsimp only
  rw [findOne_append_singleton base aid _ hbase]
  unfold TaskManager.writeActionStatus ActionRepository.update_action_status
  dsimp only
  rw [dbModify_append_singleton base aid _ _ hbase]
  rw [List.append_assoc]
  rfl

theorem dictGet_middle {α : Type} (d1 d2 : List (String × α)) (k : String) (v : α)
    (h1 : ∀ p ∈ d1, p.1 ≠ k) : dictGet (d1 ++ (k, v) :: d2) k = some v := by
  rw [dictGet_append_of_none d1 _ k (dictGet_none_of_forall d1 k h1), dictGet_cons]
  simp

theorem mem_map_status_completed (dRecs : List TaskRecord)
    (hdstat : ∀ x ∈ dRecs, x.status = TaskStatus.completed) :
    ∀ c ∈ dRecs.map TaskRecord.status, c = TaskStatus.completed := by
  intro c hc
  rcases List.mem_map.1 hc with ⟨r, hr, rfl⟩
  exact hdstat r hr

theorem initRecord_status_notStarted (restR : List Task) :
    ∀ c ∈ (restR.map TaskManager.initRecord).map TaskRecord.status,
      c = TaskStatus.notStarted := by
  intro c hc
  rcases List.mem_map.1 hc with ⟨r, hr, rfl⟩
  rcases List.mem_map.1 hr with ⟨u, hu, rfl⟩
  rfl

theorem initRecord_names_ne (restR : List Task) (n : String) (h : ∀ u ∈ restR, u.name ≠ n) :
    ∀ x ∈ restR.map TaskManager.initRecord, x.name ≠ n := by
  intro x hx
  rcases List.mem_map.1 hx with ⟨u, hu, rfl⟩
  exact h u hu

theorem pair_keys_ne (restR : List Task) (n : String) (h : ∀ u ∈ restR, u.name ≠ n) :
    ∀ p ∈ restR.map (fun u => (u.name, u)), p.1 ≠ n := by
  intro p hp
  rcases List.mem_map.1 hp with ⟨u, hu, rfl⟩
  exact h u hu

theorem isEmpty_double_map {α β γ : Type} (l : List α) (f : α → β) (g : β → γ) :
    ((l.map f).map g).isEmpty = l.isEmpty := by
  cases l <;> rfl

theorem run_task_step_ok
    (base : DB) (s0tasks : List (String × List (String × Task))) (aid : String)
    (doc : ActionDoc) (dRecs : List TaskRecord) (dReg : List (String × Task))
    (t : Task) (restR : List Task) (s : MState)
    (hbase : ∀ p ∈ base, p.1 ≠ aid)
    (hdb : s.db = base ++ [(aid, doc)])
    (htasks : doc.tasks = dRecs ++ TaskManager.initRecord t :: restR.map TaskManager.initRecord)
    (hdstat : ∀ x ∈ dRecs, x.status = TaskStatus.completed)
    (hreg : s.tasks = dictSet s0tasks aid
      (dReg ++ (t.name, t) :: restR.map (fun u => (u.name, u))))
    (hk1 : ∀ p ∈ dReg, p.1 ≠ t.name)
    (hn1 : ∀ x ∈ dRecs, x.name ≠ t.name)
    (hn2 : ∀ u ∈ restR, u.name ≠ t.name)
    (hok : t.behavior = Except.ok ())
    (hem : t.error_message = none) :
    TaskManager.run_task s aid t.name
      = ({ s with
            db := base ++ [(aid,
              { doc with
                status := if restR.isEmpty then TaskStatus.completed else TaskStatus.notStarted,
                tasks := dRecs ++
                  { name := t.name, description := t.description,
                    status := TaskStatus.completed, error_message := none,
                    start_time := some s.clock, end_time := some (s.clock + 1) }
                  :: restR.map TaskManager.initRecord })],
            tasks := dictSet s0tasks aid
              (dReg ++ (t.name, Task.run t) :: restR.map (fun u => (u.name, u))),
            clock := s.clock + 2,
            trace := s.trace ++ [WriteEvent.taskW t.name TaskStatus.inProgress,
              WriteEvent.actionW TaskStatus.inProgress,
              WriteEvent.taskW t.name TaskStatus.completed,
              WriteEvent.actionW
                (if restR.isEmpty then TaskStatus.completed else TaskStatus.notStarted)] },
          none) := by
  have hn2' := initRecord_names_ne restR t.name hn2
  have hrecA : ActionRepository.applyTaskUpdate
      (TaskManager.mkTaskUpdate TaskStatus.inProgress none (some s.clock) none)
      (TaskManager.initRecord t)
      = { name := t.name, description := t.description, status := TaskStatus.inProgress,
          error_message := none, start_time := some s.clock, end_time := none } := rfl
  have step1 := update_task_status_step base aid doc (TaskManager.tick s) dRecs
    (restR.map TaskManager.initRecord) (TaskManager.initRecord t) t.name
    TaskStatus.inProgress none (some s.clock) none hbase hdb htasks rfl hn1 hn2'
  rw [hrecA] at step1
  have hroll1 : TaskManager.rollup ((dRecs ++
      ({ name := t.name, description := t.description, status := TaskStatus.inProgress,
         error_message := none, start_time := some s.clock, end_time := none } : TaskRecord)
        :: restR.map TaskManager.initRecord).map TaskRecord.status) = TaskStatus.inProgress := by
    rw [List.map_append, List.map_cons]
    exact rollup_eq_inProgress _ _ (mem_map_status_completed dRecs hdstat)
      (initRecord_status_notStarted restR)
  rw [hroll1] at step1
  have hrun : Task.run t
      = { t with status := TaskStatus.completed } := by
    unfold Task.run
    dsimp only
    rw [hok]
  unfold TaskManager.run_task
  dsimp only
  rw [step1]
  simp only [TaskManager.tick]
  rw [hreg, dictGet_dictSet_self]
  dsimp only
  rw [dictGet_middle dReg _ t.name t hk1]
  dsimp only
  rw [dictSet_dictSet, dictSet_middle dReg _ t.name t (Task.run t) hk1 (pair_keys_ne restR t.name hn2)]
  rw [hrun]
  dsimp only
  rw [show (if (TaskStatus.completed == TaskStatus.completed) = true
      then TaskStatus.completed else TaskStatus.failed) = TaskStatus.completed from rfl]
  have step2 := update_task_status_step base aid
    { doc with
      status := TaskStatus.inProgress,
      tasks := dRecs ++
        { name := t.name, description := t.description, status := TaskStatus.inProgress,
          error_message := none, start_time := some s.clock, end_time := none }
        :: restR.map TaskManager.initRecord }
    { db := base ++ [(aid,
        { doc with
          status := TaskStatus.inProgress,
          tasks := dRecs ++
            { name := t.name, description := t.description, status := TaskStatus.inProgress,
              error_message := none, start_time := some s.clock, end_time := none }
            :: restR.map TaskManager.initRecord })],
      tasks := dictSet s0tasks aid
        (dReg ++ (t.name, { t with status := TaskStatus.completed })
          :: restR.map (fun u => (u.name, u))),
      clock := s.clock + 2,
      trace := s.trace ++ [WriteEvent.taskW t.name TaskStatus.inProgress,
        WriteEvent.actionW TaskStatus.inProgress] }
    dRecs (restR.map TaskManager.initRecord)
    { name := t.name, description := t.description, status := TaskStatus.inProgress,
      error_message := none, start_time := some s.clock, end_time := none }
    t.name TaskStatus.completed t.error_message none (some (s.clock + 1))
    hbase rfl rfl rfl hn1 hn2'
  have hrecB : ActionRepository.applyTaskUpdate
      (TaskManager.mkTaskUpdate TaskStatus.completed t.error_message none (some (s.clock + 1)))
      ({ name := t.name, description := t.description, status := TaskStatus.inProgress,
         error_message := none, start_time := some s.clock, end_time := none } : TaskRecord)
      = { name := t.name, description := t.description, status := TaskStatus.completed,
          error_message := none, start_time := some s.clock, end_time := some (s.clock + 1) } := by
    rw [hem]
    rfl
  rw [hrecB] at step2
  have hroll2 : TaskManager.rollup ((dRecs ++
      ({ name := t.name, description := t.description, status := TaskStatus.completed,
         error_message := none, start_time := some s.clock, end_time := some (s.clock + 1) } : TaskRecord)
        :: restR.map TaskManager.initRecord).map TaskRecord.status)
      = if restR.isEmpty then TaskStatus.completed else TaskStatus.notStarted := by
    rw [List.map_append, List.map_cons]
    rw [rollup_eq_after_completed _ _ (mem_map_status_completed dRecs hdstat)
      (initRecord_status_notStarted restR)]
    rw [isEmpty_double_map]
  rw [hroll2] at step2
  rw [step2]
  dsimp only
  rw [List.append_assoc]
  rfl

theorem run_task_step_err
    (base : DB) (s0tasks : List (String × List (String × Task))) (aid : String)
    (doc : ActionDoc) (dRecs : List TaskRecord) (dReg : List (String × Task))
    (t : Task) (restR : List Task) (s : MState) (e : String)
    (hbase : ∀ p ∈ base, p.1 ≠ aid)
    (hdb : s.db = base ++ [(aid, doc)])
    (htasks : doc.tasks = dRecs ++ TaskManager.initRecord t :: restR.map TaskManager.initRecord)
    (hdstat : ∀ x ∈ dRecs, x.status = TaskStatus.completed)
    (hreg : s.tasks = dictSet s0tasks aid
      (dReg ++ (t.name, t) :: restR.map (fun u => (u.name, u))))
    (hk1 : ∀ p ∈ dReg, p.1 ≠ t.name)
    (hn1 : ∀ x ∈ dRecs, x.name ≠ t.name)
    (hn2 : ∀ u ∈ restR, u.name ≠ t.name)
    (herr : t.behavior = Except.error e) :
    TaskManager.run_task s aid t.name
      = ({ s with
            db := base ++ [(aid,
              { doc with
                status := TaskStatus.failed,
                tasks := dRecs ++
                  { name := t.name, description := t.description,
                    status := TaskStatus.failed,
                    error_message := if (e == "") = true then none else some e,
                    start_time := some s.clock, end_time := some (s.clock + 1) }
                  :: restR.map TaskManager.initRecord })],
            tasks := dictSet s0tasks aid
              (dReg ++ (t.name, Task.run t) :: restR.map (fun u => (u.name, u))),
            clock := s.clock + 2,
            trace := s.trace ++ [WriteEvent.taskW t.name TaskStatus.inProgress,
              WriteEvent.actionW TaskStatus.inProgress,
              WriteEvent.taskW t.name TaskStatus.failed,
              WriteEvent.actionW TaskStatus.failed] },
          none) := by
  have hn2' := initRecord_names_ne restR t.name hn2
  have hrecA : ActionRepository.applyTaskUpdate
      (TaskManager.mkTaskUpdate TaskStatus.inProgress none (some s.clock) none)
      (TaskManager.initRecord t)
      = { name := t.name, description := t.description, status := TaskStatus.inProgress,
          error_message := none, start_time := some s.clock, end_time := none } := rfl
  have step1 := update_task_status_step base aid doc (TaskManager.tick s) dRecs
    (restR.map TaskManager.initRecord) (TaskManager.initRecord t) t.name
    TaskStatus.inProgress none (some s.clock) none hbase hdb htasks rfl hn1 hn2'
  rw [hrecA] at step1
  have hroll1 : TaskManager.rollup ((dRecs ++
      ({ name := t.name, description := t.description, status := TaskStatus.inProgress,
         error_message := none, start_time := some s.clock, end_time := none } : TaskRecord)
        :: restR.map TaskManager.initRecord).map TaskRecord.status) = TaskStatus.inProgress := by
    rw [List.map_append, List.map_cons]
    exact rollup_eq_inProgress _ _ (mem_map_status_completed dRecs hdstat)
      (initRecord_status_notStarted restR)
  rw [hroll1] at step1
  have hrun : Task.run t
      = { t with status := TaskStatus.failed, error_message := some e } := by
    unfold Task.run
    dsimp only
    rw [herr]
  unfold TaskManager.run_task
  dsimp only
  rw [step1]
  simp only [TaskManager.tick]
  rw [hreg, dictGet_dictSet_self]
  dsimp only
  rw [dictGet_middle dReg _ t.name t hk1]
  dsimp only
  rw [dictSet_dictSet, dictSet_middle dReg _ t.name t (Task.run t) hk1 (pair_keys_ne restR t.name hn2)]
  rw [hrun]
  dsimp only
  rw [show (if (TaskStatus.failed == TaskStatus.completed) = true
      then TaskStatus.completed else TaskStatus.failed) = TaskStatus.failed from rfl]
  have step2 := update_task_status_step base aid
    { doc with
      status := TaskStatus.inProgress,
      tasks := dRecs ++
        { name := t.name, description := t.description, status := TaskStatus.inProgress,
          error_message := none, start_time := some s.clock, end_time := none }
        :: restR.map TaskManager.initRecord }
    { db := base ++ [(aid,
        { doc with
          status := TaskStatus.inProgress,
          tasks := dRecs ++
            { name := t.name, description := t.description, status := TaskStatus.inProgress,
              error_message := none, start_time := some s.clock, end_time := none }
            :: restR.map TaskManager.initRecord })],
      tasks := dictSet s0tasks aid
        (dReg ++ (t.name, { t with status := TaskStatus.failed, error_message := some e })
          :: restR.map (fun u => (u.name, u))),
      clock := s.clock + 2,
      trace := s.trace ++ [WriteEvent.taskW t.name TaskStatus.inProgress,
        WriteEvent.actionW TaskStatus.inProgress] }
    dRecs (restR.map TaskManager.initRecord)
    { name := t.name, description := t.description, status := TaskStatus.inProgress,
      error_message := none, start_time := some s.clock, end_time := none }
    t.name TaskStatus.failed (some e) none (some (s.clock + 1))
    hbase rfl rfl rfl hn1 hn2'
  have hrecB : ActionRepository.applyTaskUpdate
      (TaskManager.mkTaskUpdate TaskStatus.failed (some e) none (some (s.clock + 1)))
      ({ name := t.name, description := t.description, status := TaskStatus.inProgress,
         error_message := none, start_time := some s.clock, end_time := none } : TaskRecord)
      = { name := t.name, description := t.description, status := TaskStatus.failed,
          error_message := if (e == "") = true then none else some e,
          start_time := some s.clock, end_time := some (s.clock + 1) } := by
    by_cases he : (e == "") = true
    · simp [ActionRepository.applyTaskUpdate, TaskManager.mkTaskUpdate, he]
    · simp [ActionRepository.applyTaskUpdate, TaskManager.mkTaskUpdate, he]
  rw [hrecB] at step2
  have hroll2 : TaskManager.rollup ((dRecs ++
      ({ name := t.name, description := t.description, status := TaskStatus.failed,
         error_message := if (e == "") = true then none else some e,
         start_time := some s.clock, end_time := some (s.clock + 1) } : TaskRecord)
        :: restR.map TaskManager.initRecord).map TaskRecord.status)
      = TaskStatus.failed := by
    rw [List.map_append, List.map_cons]
    exact rollup_eq_failed_mem _ (List.mem_append_right _ (List.mem_cons_self _ _))
  rw [hroll2] at step2
  rw [step2]
  dsimp only
  rw [List.append_assoc]
  rfl

theorem expProj_cons (t : Task) (rest : List Task) :
    expProj (t :: rest)
      = match t.behavior with
        | Except.ok _ => (t.name, TaskStatus.completed, none) :: expProj rest
        | Except.error e =>
          (t.name, TaskStatus.failed, if e == "" then none else some e)
            :: rest.map (fun u => (u.name, TaskStatus.notStarted, none)) := rfl

theorem expStatus_cons (dflt : TaskStatus) (t : Task) (rest : List Task) :
    expStatus dflt (t :: rest)
      = match t.behavior with
        | Except.ok _ =>
          expStatus (if rest.isEmpty then TaskStatus.completed else TaskStatus.notStarted) rest
        | Except.error _ => TaskStatus.failed := rfl

theorem expTrace_cons (t : Task) (rest : List Task) :
    expTrace (t :: rest)
      = match t.behavior with
        | Except.ok _ =>
          WriteEvent.taskW t.name TaskStatus.inProgress
            :: WriteEvent.actionW TaskStatus.inProgress
            :: WriteEvent.taskW t.name TaskStatus.completed
            :: WriteEvent.actionW
                (if rest.isEmpty then TaskStatus.completed else TaskStatus.notStarted)
            :: expTrace rest
        | Except.error _ =>
          [WriteEvent.taskW t.name TaskStatus.inProgress,
           WriteEvent.actionW TaskStatus.inProgress,
           WriteEvent.taskW t.name TaskStatus.failed,
           WriteEvent.actionW TaskStatus.failed,
           WriteEvent.actionW TaskStatus.failed] := rfl

theorem expReg_cons (t : Task) (rest : List Task) :
    expReg (t :: rest)
      = match t.behavior with
        | Except.ok _ => (t.name, Task.run t) :: expReg rest
        | Except.error _ => (t.name, Task.run t) :: rest.map (fun u => (u.name, u)) := rfl

theorem run_loop_spec :
    ∀ (restR : List Task) (base : DB) (s0tasks : List (String × List (String × Task)))
      (aid : String) (doc : ActionDoc) (dRecs : List TaskRecord)
      (dReg : List (String × Task)) (s : MState),
    (∀ p ∈ base, p.1 ≠ aid) →
    s.db = base ++ [(aid, doc)] →
    doc.tasks = dRecs ++ restR.map TaskManager.initRecord →
    (∀ x ∈ dRecs, x.status = TaskStatus.completed) →
    s.tasks = dictSet s0tasks aid (dReg ++ restR.map (fun u => (u.name, u))) →
    dReg.map Prod.fst = dRecs.map TaskRecord.name →
    (∀ p ∈ dReg, p.2.status = TaskStatus.completed) →
    (dRecs.map TaskRecord.name ++ restR.map Task.name).Nodup →
    (∀ u ∈ restR, u.error_message = none) →
    ∃ (s' : MState) (doc' : ActionDoc),
      TaskManager.run_loop s aid (restR.map Task.name) = (s', none) ∧
      s'.db = base ++ [(aid, doc')] ∧
      doc'.name = doc.name ∧
      doc'.start_time = doc.start_time ∧
      doc'.end_time = doc.end_time ∧
      doc'.status = expStatus doc.status restR ∧
      doc'.tasks.map projT = dRecs.map projT ++ expProj restR ∧
      s'.tasks = dictSet s0tasks aid (dReg ++ expReg restR) ∧
      s'.trace = s.trace ++ expTrace restR := by
  intro restR
  induction restR with
  | nil =>
    intro base s0tasks aid doc dRecs dReg s hbase hdb htasks hdstat hreg hkeys hdregstat
      hnodup hfresh
    refine ⟨s, doc, rfl, hdb, rfl, rfl, rfl, rfl, ?_, ?_, ?_⟩
    · rw [htasks]
      simp [expProj]
    · rw [hreg]
      simp [expReg]
    · simp [expTrace]
  | cons t restR' ih =>
    intro base s0tasks aid doc dRecs dReg s hbase hdb htasks hdstat hreg hkeys hdregstat
      hnodup hfresh
    have hnodup' := hnodup
    rw [List.map_cons] at hnodup'
    have hdisj : ∀ a ∈ dRecs.map TaskRecord.name, a ∉ t.name :: restR'.map Task.name :=
      (List.nodup_append.1 hnodup').2.2
    have hcons_nodup : (t.name :: restR'.map Task.name).Nodup :=
      (List.nodup_append.1 hnodup').2.1
    have htn_rn : t.name ∉ restR'.map Task.name := (List.nodup_cons.1 hcons_nodup).1
    have hn1 : ∀ x ∈ dRecs, x.name ≠ t.name := by
      intro x hx hxn
      exact (hdisj x.name (List.mem_map_of_mem _ hx))
        (by rw [hxn]; exact List.mem_cons_self _ _)
    have hn2 : ∀ u ∈ restR', u.name ≠ t.name := by
      intro u hu hun
      exact htn_rn (by rw [← hun]; exact List.mem_map_of_mem _ hu)
    have hk1 : ∀ p ∈ dReg, p.1 ≠ t.name := by
      intro p hp hpk
      have hmem : p.1 ∈ dReg.map Prod.fst := List.mem_map_of_mem _ hp
      rw [hkeys] at hmem
      exact (hdisj p.1 hmem) (by rw [hpk]; exact List.mem_cons_self _ _)
    have htasks' : doc.tasks
        = dRecs ++ TaskManager.initRecord t :: restR'.map TaskManager.initRecord := by
      rw [htasks, List.map_cons]
    have hreg' : s.tasks
        = dictSet s0tasks aid (dReg ++ (t.name, t) :: restR'.map (fun u => (u.name, u))) := by
      rw [hreg, List.map_cons]
    have hfresh_t : t.error_message = none := hfresh t (List.mem_cons_self _ _)
    rw [List.map_cons]
    cases hb : t.behavior with
    | ok u =>
      cases u
      have hrun : Task.run t = { t with status := TaskStatus.completed } := by
        unfold Task.run
        dsimp only
        rw [hb]
      have step := run_task_step_ok base s0tasks aid doc dRecs dReg t restR' s hbase hdb
        htasks' hdstat hreg' hk1 hn1 hn2 hb hfresh_t
      rw [hrun] at step
      unfold TaskManager.run_loop
      rw [step]
      dsimp only
      rw [dictGet_dictSet_self]
      dsimp only
      rw [dictGet_middle dReg _ t.name _ hk1]
      dsimp only
      rw [if_neg (show ¬((TaskStatus.completed == TaskStatus.failed) = true) by decide)]
      obtain ⟨s3, doc3, hrun3, hdb3, hname3, hst3, hend3, hstatus3, hproj3, hreg3, htrace3⟩ :=
        ih base s0tasks aid
          { doc with
            status := if restR'.isEmpty then TaskStatus.completed else TaskStatus.notStarted,
            tasks := dRecs ++
              { name := t.name, description := t.description, status := TaskStatus.completed,
                error_message := none, start_time := some s.clock, end_time := some (s.clock + 1) }
              :: restR'.map TaskManager.initRecord }
          (dRecs ++ [{ name := t.name, description := t.description,
                       status := TaskStatus.completed, error_message := none,
                       start_time := some s.clock, end_time := some (s.clock + 1) }])
          (dReg ++ [(t.name, { t with status := TaskStatus.completed })])
          { s with
            db := base ++ [(aid,
              { doc with
                status := if restR'.isEmpty then TaskStatus.completed else TaskStatus.notStarted,
                tasks := dRecs ++
                  { name := t.name, description := t.description,
                    status := TaskStatus.completed, error_message := none,
                    start_time := some s.clock, end_time := some (s.clock + 1) }
                  :: restR'.map TaskManager.initRecord })],
            tasks := dictSet s0tasks aid
              (dReg ++ (t.name, { t with status := TaskStatus.completed })
                :: restR'.map (fun u => (u.name, u))),
            clock := s.clock + 2,
            trace := s.trace ++ [WriteEvent.taskW t.name TaskStatus.inProgress,
              WriteEvent.actionW TaskStatus.inProgress,
              WriteEvent.taskW t.name TaskStatus.completed,
              WriteEvent.actionW
                (if restR'.isEmpty then TaskStatus.completed else TaskStatus.notStarted)] }
          hbase rfl (by rw [List.append_assoc]; rfl)
          (by intro x hx
              rcases List.mem_append.1 hx with h1 | h1
              · exact hdstat x h1
              · rcases List.mem_cons.1 h1 with h2 | h2
                · rw [h2]
                · exact absurd h2 (List.not_mem_nil x))
          (by rw [List.append_assoc]; rfl)
          (by rw [List.map_append, List.map_append, hkeys]; rfl)
          (by intro p hp
              rcases List.mem_append.1 hp with h1 | h1
              · exact hdregstat p h1
              · rcases List.mem_cons.1 h1 with h2 | h2
                · rw [h2]
                · exact absurd h2 (List.not_mem_nil p))
          (by rw [List.map_append, List.append_assoc]
              exact hnodup')
          (fun u hu => hfresh u (List.mem_cons_of_mem t hu))
      rw [hrun3]
      refine ⟨s3, doc3, rfl, hdb3, hname3, hst3, hend3, ?_, ?_, ?_, ?_⟩
      · rw [expStatus_cons, hb]
        exact hstatus3
      · rw [expProj_cons, hb]
        rw [List.map_append, List.append_assoc] at hproj3
        exact hproj3
      · rw [expReg_cons, hb, hrun]
        rw [List.append_assoc] at hreg3
        exact hreg3
      · have htrace3' : s3.trace
            = (s.trace ++ [WriteEvent.taskW t.name TaskStatus.inProgress,
                WriteEvent.actionW TaskStatus.inProgress,
                WriteEvent.taskW t.name TaskStatus.completed,
                WriteEvent.actionW
                  (if restR'.isEmpty then TaskStatus.completed else TaskStatus.notStarted)])
              ++ expTrace restR' := htrace3
        rw [List.append_assoc] at htrace3'
        rw [expTrace_cons, hb]
        exact htrace3'
    | error e =>
      have hrun : Task.run t
          = { t with status := TaskStatus.failed, error_message := some e } := by
        unfold Task.run
        dsimp only
        rw [hb]
      have step := run_task_step_err base s0tasks aid doc dRecs dReg t restR' s e hbase hdb
        htasks' hdstat hreg' hk1 hn1 hn2 hb
      rw [hrun] at step
      unfold TaskManager.run_loop
      rw [step]
      dsimp only
      rw [dictGet_dictSet_self]
      dsimp only
      rw [dictGet_middle dReg _ t.name _ hk1]
      dsimp only
      rw [if_pos (show (TaskStatus.failed == TaskStatus.failed) = true by decide)]
      unfold TaskManager.writeActionStatus ActionRepository.update_action_status
      dsimp only
      rw [dbModify_append_singleton base aid _ _ hbase]
      refine ⟨_, _, rfl, rfl, ?_, ?_, ?_, ?_, ?_, ?_, ?_⟩
      · rfl
      · rfl
      · rfl
      · rw [expStatus_cons, hb]
      · rw [expProj_cons, hb]
        dsimp only
        rw [List.map_append, List.map_cons, List.map_map]
        rfl
      · conv_rhs => rw [expReg_cons, hb]
        rw [hrun]
      · rw [expTrace_cons, hb]
        dsimp only
        rw [List.append_assoc]
        rfl

theorem buildRegistry_eq (ts : List Task) (hnodup : (ts.map Task.name).Nodup) :
    TaskManager.buildRegistry ts = ts.map (fun u => (u.name, u)) := by
  have main : ∀ (l : List Task) (acc : List (String × Task)),
      (∀ p ∈ acc, ∀ u ∈ l, p.1 ≠ u.name) → (l.map Task.name).Nodup →
      l.foldl (fun d u => dictSet d u.name u) acc = acc ++ l.map (fun u => (u.name, u)) := by
    intro l
    induction l with
    | nil =>
      intro acc _ _
      simp
    | cons t ts' ih =>
      intro acc hacc hnd
      rw [List.map_cons] at hnd
      have htn : t.name ∉ ts'.map Task.name := (List.nodup_cons.1 hnd).1
      rw [List.foldl_cons]
      rw [dictSet_no_key acc t.name t (fun p hp => hacc p hp t (List.mem_cons_self _ _))]
      rw [ih (acc ++ [(t.name, t)])
        (by intro p hp u hu
            rcases List.mem_append.1 hp with h1 | h1
            · exact hacc p h1 u (List.mem_cons_of_mem _ hu)
            · rcases List.mem_cons.1 h1 with h2 | h2
              · subst h2
                intro hne
                apply htn
                rw [show ((t.name, t).1 : String) = t.name from rfl] at hne
                rw [hne]
                exact List.mem_map_of_mem _ hu
              · exact absurd h2 (List.not_mem_nil p))
        (List.nodup_cons.1 hnd).2]
      rw [List.map_cons, List.append_assoc]
      rfl
  have hmain := main ts [] (by intro p hp; exact absurd hp (List.not_mem_nil p)) hnodup
  unfold TaskManager.buildRegistry
  rw [hmain]
  rfl

theorem expReg_all_status (ts : List Task) :
    ((expReg ts).map (fun p => p.2)).all (fun u => u.status == TaskStatus.completed)
      = allOk ts := by
  induction ts with
  | nil => rfl
  | cons t rest ih =>
    rw [expReg_cons]
    cases hb : t.behavior with
    | ok u =>
      cases u
      dsimp only
      rw [List.map_cons, List.all_cons]
      have h2 : (Task.run t).status = TaskStatus.completed := by
        unfold Task.run
        dsimp only
        rw [hb]
      rw [h2, ih]
      have h3 : allOk (t :: rest) = (true && allOk rest) := by
        unfold allOk
        rw [List.all_cons, hb]
      rw [h3]
      rfl
    | error e =>
      dsimp only
      rw [List.map_cons, List.all_cons]
      have h2 : (Task.run t).status = TaskStatus.failed := by
        unfold Task.run
        dsimp only
        rw [hb]
      rw [h2]
      have h3 : allOk (t :: rest) = (false && allOk rest) := by
        unfold allOk
        rw [List.all_cons, hb]
      rw [h3]
      rfl

theorem run_action_spec (s : MState) (aid anm : String) (ts : List Task)
    (hfree : dictGet s.db aid = none)
    (hnodup : (ts.map Task.name).Nodup)
    (hfresh : ∀ u ∈ ts, u.error_message = none) :
    ∃ (s2 : MState) (doc2 : ActionDoc),
      TaskManager.run_action (TaskManager.create_action s aid anm ts).1 aid = (s2, none) ∧
      ActionRepository.findOne s2.db aid = some doc2 ∧
      doc2.name = anm ∧
      doc2.status
        = (if allOk ts then TaskStatus.completed else expStatus TaskStatus.notStarted ts) ∧
      doc2.start_time.isSome = true ∧
      doc2.end_time.isSome = true ∧
      doc2.tasks.map projT = expProj ts ∧
      s2.trace = s.trace ++ expTrace ts
        ++ (if allOk ts then [WriteEvent.actionW TaskStatus.completed] else []) := by
  have hbase := forall_of_dictGet_none s.db aid hfree
  unfold TaskManager.create_action ActionRepository.insert_action
  rw [hfree]
  dsimp only
  unfold TaskManager.run_action ActionRepository.find_action
  dsimp only
  rw [findOne_append_singleton s.db aid _ hbase]
  dsimp only
  unfold TaskManager.update_action_time ActionRepository.update_action_time
  dsimp only [TaskManager.tick]
  rw [dbModify_append_singleton s.db aid _ _ hbase]
  have hnames : (ts.map TaskManager.initRecord).map (fun r => r.name) = ts.map Task.name := by
    rw [List.map_map]
    rfl
  rw [hnames, buildRegistry_eq ts hnodup]
  obtain ⟨s3, doc3, hloop, hdb3, hname3, hst3, hend3, hstatus3, hproj3, hreg3, htrace3⟩ :=
    run_loop_spec ts s.db s.tasks aid
      { name := anm, status := TaskStatus.notStarted, start_time := some s.clock,
        end_time := none, tasks := ts.map TaskManager.initRecord }
      [] []
      { s with
        db := s.db ++ [(aid,
          { name := anm, status := TaskStatus.notStarted, start_time := some s.clock,
            end_time := none, tasks := ts.map TaskManager.initRecord })],
        tasks := dictSet s.tasks aid (ts.map (fun u => (u.name, u))),
        clock := s.clock + 1 }
      hbase rfl rfl (fun x hx => absurd hx (List.not_mem_nil x)) rfl rfl
      (fun p hp => absurd hp (List.not_mem_nil p)) hnodup hfresh
  rw [hloop]
  dsimp only
  rw [hreg3, dictGet_dictSet_self]
  dsimp only
  rw [List.nil_append, expReg_all_status]
  have htrace3' : s3.trace = s.trace ++ expTrace ts := htrace3
  by_cases hall : allOk ts = true
  · rw [if_pos hall]
    unfold TaskManager.writeActionStatus ActionRepository.update_action_status
    dsimp only
    rw [hdb3, List.nil_append] at *
    rw [dbModify_append_singleton s.db aid _ _ hbase]
    rw [dbModify_append_singleton s.db aid _ _ hbase]
    refine ⟨_, _, rfl, findOne_append_singleton s.db aid _ hbase, ?_, ?_, ?_, ?_, ?_, ?_⟩
    · exact hname3
    · rw [if_pos hall]
    · rw [show doc3.start_time = some s.clock from hst3]
      rfl
    · rfl
    · exact hproj3
    · rw [if_pos hall]
      rw [htrace3']
  · rw [if_neg hall]
    rw [hdb3]
    rw [dbModify_append_singleton s.db aid _ _ hbase]
    refine ⟨_, _, rfl, findOne_append_singleton s.db aid _ hbase, ?_, ?_, ?_, ?_, ?_, ?_⟩
    · exact hname3
    · rw [if_neg hall]
      exact hstatus3
    · rw [show doc3.start_time = some s.clock from hst3]
      rfl
    · rfl
    · exact hproj3
    · rw [if_neg hall, List.append_nil]
      exact htrace3'

theorem expProj_split (pre post : List Task) (tk : Task) (e : String)
    (hpre : ∀ u ∈ pre, u.behavior = Except.ok ()) (htk : tk.behavior = Except.error e) :
    expProj (pre ++ tk :: post)
      = pre.map (fun u => (u.name, TaskStatus.completed, (none : Option String)))
        ++ (tk.name, TaskStatus.failed, if e == "" then none else some e)
          :: post.map (fun u => (u.name, TaskStatus.notStarted, none)) := by
  induction pre with
  | nil =>
    rw [List.nil_append, expProj_cons, htk]
    rfl
  | cons p pre' ih =>
    have hp : p.behavior = Except.ok () := hpre p (List.mem_cons_self _ _)
    rw [List.cons_append, expProj_cons, hp]
    dsimp only
    rw [ih (fun u hu => hpre u (List.mem_cons_of_mem _ hu))]
    rfl

theorem expStatus_split (pre post : List Task) (tk : Task) (e : String)
    (hpre : ∀ u ∈ pre, u.behavior = Except.ok ()) (htk : tk.behavior = Except.error e) :
    ∀ dflt, expStatus dflt (pre ++ tk :: post) = TaskStatus.failed := by
  induction pre with
  | nil =>
    intro dflt
    rw [List.nil_append, expStatus_cons, htk]
  | cons p pre' ih =>
    intro dflt
    have hp : p.behavior = Except.ok () := hpre p (List.mem_cons_self _ _)
    rw [List.cons_append, expStatus_cons, hp]
    exact ih (fun u hu => hpre u (List.mem_cons_of_mem _ hu)) _

theorem allOk_split (pre post : List Task) (tk : Task) (e : String)
    (htk : tk.behavior = Except.error e) : allOk (pre ++ tk :: post) = false := by
  unfold allOk
  rw [List.all_append, List.all_cons, htk]
  simp

theorem taskWrites_append (tr1 tr2 : List WriteEvent) (n : String) :
    taskWrites (tr1 ++ tr2) n = taskWrites tr1 n ++ taskWrites tr2 n :=
  List.filterMap_append _ _ _

theorem actionWrites_append (tr1 tr2 : List WriteEvent) :
    actionWrites (tr1 ++ tr2) = actionWrites tr1 ++ actionWrites tr2 :=
  List.filterMap_append _ _ _

theorem taskWrites_cons_taskW (m : String) (st : TaskStatus) (tr : List WriteEvent) (n : String) :
    taskWrites (WriteEvent.taskW m st :: tr) n
      = if m == n then st :: taskWrites tr n else taskWrites tr n := by
  unfold taskWrites
  rw [List.filterMap_cons]
  by_cases h : (m == n) = true <;> simp [h]

theorem taskWrites_cons_actionW (st : TaskStatus) (tr : List WriteEvent) (n : String) :
    taskWrites (WriteEvent.actionW st :: tr) n = taskWrites tr n := by
  unfold taskWrites
  rw [List.filterMap_cons]

theorem actionWrites_cons_taskW (m : String) (st : TaskStatus) (tr : List WriteEvent) :
    actionWrites (WriteEvent.taskW m st :: tr) = actionWrites tr := by
  unfold actionWrites
  rw [List.filterMap_cons]

theorem actionWrites_cons_actionW (st : TaskStatus) (tr : List WriteEvent) :
    actionWrites (WriteEvent.actionW st :: tr) = st :: actionWrites tr := by
  unfold actionWrites
  rw [List.filterMap_cons]

theorem taskWrites_cons_taskW_ne (m : String) (st : TaskStatus) (tr : List WriteEvent)
    (n : String) (h : (m == n) = false) :
    taskWrites (WriteEvent.taskW m st :: tr) n = taskWrites tr n := by
  rw [taskWrites_cons_taskW, h]
  rfl

theorem taskWrites_cons_taskW_eq (m : String) (st : TaskStatus) (tr : List WriteEvent)
    (n : String) (h : (m == n) = true) :
    taskWrites (WriteEvent.taskW m st :: tr) n = st :: taskWrites tr n := by
  rw [taskWrites_cons_taskW, h]
  rfl

theorem taskWrites_expTrace_nil (ts : List Task) (n : String) (h : n ∉ ts.map Task.name) :
    taskWrites (expTrace ts) n = [] := by
  induction ts with
  | nil => rfl
  | cons t rest ih =>
    rw [List.map_cons, List.mem_cons] at h
    push_neg at h
    have hne : (t.name == n) = false := by
      simp only [beq_eq_false_iff_ne]
      exact fun hc => h.1 hc.symm
    rw [expTrace_cons]
    cases hb : t.behavior with
    | ok u =>
      dsimp only
      rw [taskWrites_cons_taskW_ne _ _ _ _ hne, taskWrites_cons_actionW,
        taskWrites_cons_taskW_ne _ _ _ _ hne, taskWrites_cons_actionW]
      exact ih h.2
    | error e =>
      dsimp only
      rw [taskWrites_cons_taskW_ne _ _ _ _ hne, taskWrites_cons_actionW,
        taskWrites_cons_taskW_ne _ _ _ _ hne, taskWrites_cons_actionW,
        taskWrites_cons_actionW]
      rfl

theorem taskWrites_expTrace_chain (ts : List Task) (n : String)
    (hnodup : (ts.map Task.name).Nodup) :
    chainOk forwardOk (taskWrites (expTrace ts) n) = true := by
  induction ts with
  | nil => rfl
  | cons t rest ih =>
    rw [List.map_cons] at hnodup
    have htn : t.name ∉ rest.map Task.name := (List.nodup_cons.1 hnodup).1
    have hnd : (rest.map Task.name).Nodup := (List.nodup_cons.1 hnodup).2
    rw [expTrace_cons]
    cases hb : t.behavior with
    | ok u =>
      dsimp only
      by_cases h : (t.name == n) = true
      · rw [taskWrites_cons_taskW_eq _ _ _ _ h, taskWrites_cons_actionW,
          taskWrites_cons_taskW_eq _ _ _ _ h, taskWrites_cons_actionW]
        have hnil : taskWrites (expTrace rest) n = [] := by
          apply taskWrites_expTrace_nil
          intro hmem
          apply htn
          have hteq : t.name = n := by simpa using h
          rw [hteq]
          exact hmem
        rw [hnil]
        rfl
      · rw [taskWrites_cons_taskW_ne _ _ _ _ (by simpa using h), taskWrites_cons_actionW,
          taskWrites_cons_taskW_ne _ _ _ _ (by simpa using h), taskWrites_cons_actionW]
        exact ih hnd
    | error e =>
      dsimp only
      by_cases h : (t.name == n) = true
      · rw [taskWrites_cons_taskW_eq _ _ _ _ h, taskWrites_cons_actionW,
          taskWrites_cons_taskW_eq _ _ _ _ h, taskWrites_cons_actionW,
          taskWrites_cons_actionW]
        rfl
      · rw [taskWrites_cons_taskW_ne _ _ _ _ (by simpa using h), taskWrites_cons_actionW,
          taskWrites_cons_taskW_ne _ _ _ _ (by simpa using h), taskWrites_cons_actionW,
          taskWrites_cons_actionW]
        rfl

theorem chainOk_cons_cons (f : TaskStatus → TaskStatus → Bool) (a b : TaskStatus)
    (l : List TaskStatus) :
    chainOk f (a :: b :: l) = (f a b && chainOk f (b :: l)) := rfl

theorem chainOk_cons_of (f : TaskStatus → TaskStatus → Bool) (x y : TaskStatus)
    (l : List TaskStatus) (h1 : f x y = true) (h2 : chainOk f (y :: l) = true) :
    chainOk f (x :: y :: l) = true := by
  rw [chainOk_cons_cons, h1, h2]
  rfl

theorem actionWrites_chain (ts : List Task) :
    chainOk terminalOk (actionWrites (expTrace ts)
      ++ (if allOk ts then [TaskStatus.completed] else [])) = true := by
  induction ts with
  | nil => rfl
  | cons t rest ih =>
    rw [expTrace_cons]
    cases hb : t.behavior with
    | ok u =>
      dsimp only
      rw [actionWrites_cons_taskW, actionWrites_cons_actionW, actionWrites_cons_taskW,
        actionWrites_cons_actionW]
      have hallcons : allOk (t :: rest) = allOk rest := by
        unfold allOk
        rw [List.all_cons, hb]
        simp
      rw [hallcons]
      cases rest with
      | nil => rfl
      | cons r rs =>
        have hhead : ∃ l', actionWrites (expTrace (r :: rs)) = TaskStatus.inProgress :: l' := by
          rw [expTrace_cons]
          cases hr : r.behavior with
          | ok v =>
            dsimp only
            rw [actionWrites_cons_taskW, actionWrites_cons_actionW]
            exact ⟨_, rfl⟩
          | error ev =>
            dsimp only
            rw [actionWrites_cons_taskW, actionWrites_cons_actionW]
            exact ⟨_, rfl⟩
        obtain ⟨l', hl'⟩ := hhead
        rw [hl', List.cons_append]
        rw [hl', List.cons_append] at ih
        rw [show (if ((r :: rs).isEmpty) = true then TaskStatus.completed
            else TaskStatus.notStarted) = TaskStatus.notStarted from rfl]
        exact chainOk_cons_of terminalOk _ _ _ rfl (chainOk_cons_of terminalOk _ _ _ rfl ih)
    | error e =>
      dsimp only
      rw [actionWrites_cons_taskW, actionWrites_cons_actionW, actionWrites_cons_taskW,
        actionWrites_cons_actionW, actionWrites_cons_actionW]
      have hallcons : allOk (t :: rest) = false := by
        unfold allOk
        rw [List.all_cons, hb]
        simp
      rw [hallcons]
      rw [if_neg (by decide : ¬(false = true)), List.append_nil]
      rfl

theorem dbModify_cons (k : String) (a : ActionDoc) (tl : DB) (id : String)
    (g : ActionDoc → ActionDoc) :
    ActionRepository.dbModify ((k, a) :: tl) id g
      = (if (k == id) = true then (k, g a) else (k, a)) :: ActionRepository.dbModify tl id g := by
  unfold ActionRepository.dbModify
  rw [List.map_cons]

theorem dbModify_tasks_preserved (db : DB) (id : String) (g : ActionDoc → ActionDoc)
    (hg : ∀ a, (g a).tasks = a.tasks) (i : String) :
    (ActionRepository.findOne (ActionRepository.dbModify db id g) i).map ActionDoc.tasks
      = (ActionRepository.findOne db i).map ActionDoc.tasks := by
  induction db with
  | nil => rfl
  | cons hd tl ih =>
    rcases hd with ⟨k, a⟩
    rw [dbModify_cons]
    unfold ActionRepository.findOne
    by_cases hk : (k == id) = true
    · rw [if_pos hk, dictGet_cons, dictGet_cons]
      by_cases hki : (k == i) = true
      · rw [if_pos hki, if_pos hki]
        simp [hg]
      · rw [if_neg hki, if_neg hki]
        exact ih
    · rw [if_neg hk, dictGet_cons, dictGet_cons]
      by_cases hki : (k == i) = true
      · rw [if_pos hki, if_pos hki]
      · rw [if_neg hki, if_neg hki]
        exact ih

theorem findOne_dbModify_self (db : DB) (id : String) (g : ActionDoc → ActionDoc) :
    ActionRepository.findOne (ActionRepository.dbModify db id g) id
      = (ActionRepository.findOne db id).map g := by
  induction db with
  | nil => rfl
  | cons hd tl ih =>
    rcases hd with ⟨k, a⟩
    rw [dbModify_cons]
    unfold ActionRepository.findOne
    by_cases hk : (k == id) = true
    · rw [if_pos hk, dictGet_cons, dictGet_cons, if_pos hk, if_pos hk]
      rfl
    · rw [if_neg hk, dictGet_cons, dictGet_cons, if_neg hk, if_neg hk]
      exact ih

theorem dbModify_comp (db : DB) (id : String) (g h : ActionDoc → ActionDoc) :
    ActionRepository.dbModify (ActionRepository.dbModify db id g) id h
      = ActionRepository.dbModify db id (fun a => h (g a)) := by
  induction db with
  | nil => rfl
  | cons hd tl ih =>
    rcases hd with ⟨k, a⟩
    rw [dbModify_cons, dbModify_cons]
    by_cases hk : (k == id) = true
    · rw [if_pos hk, dbModify_cons, if_pos hk, ih]
      rw [if_pos hk]
    · rw [if_neg hk, dbModify_cons, if_neg hk, ih]
      rw [if_neg hk]

/-! Claim theorems. -/

/-- C2: the status rollup of `_update_action_status` (task_manager.py lines
188-200) yields FAILED if any task status is FAILED; otherwise IN_PROGRESS if
any is IN_PROGRESS; otherwise COMPLETED if all are COMPLETED; otherwise
NOT_STARTED. -/
theorem rollup_cases (l : List TaskStatus) :
    (TaskStatus.failed ∈ l → TaskManager.rollup l = TaskStatus.failed) ∧
    (TaskStatus.failed ∉ l → TaskStatus.inProgress ∈ l →
      TaskManager.rollup l = TaskStatus.inProgress) ∧
    (TaskStatus.failed ∉ l → TaskStatus.inProgress ∉ l →
      (∀ x ∈ l, x = TaskStatus.completed) → TaskManager.rollup l = TaskStatus.completed) ∧
    (TaskStatus.failed ∉ l → TaskStatus.inProgress ∉ l →
      ¬(∀ x ∈ l, x = TaskStatus.completed) → TaskManager.rollup l = TaskStatus.notStarted) := by
  refine ⟨fun h => rollup_eq_failed_mem l h, fun h1 h2 => ?_, fun h1 h2 h3 => ?_,
    fun h1 h2 h3 => ?_⟩
  · unfold TaskManager.rollup
    rw [contains_eq_false_of_not_mem _ _ h1, contains_eq_true_of_mem _ _ h2]
    simp
  · unfold TaskManager.rollup
    rw [contains_eq_false_of_not_mem _ _ h1, contains_eq_false_of_not_mem _ _ h2]
    have hall : l.all (fun st => st == TaskStatus.completed) = true := by
      rw [List.all_eq_true]
      intro x hx
      simp [h3 x hx]
    rw [hall]
    simp
  · unfold TaskManager.rollup
    rw [contains_eq_false_of_not_mem _ _ h1, contains_eq_false_of_not_mem _ _ h2]
    have hall : l.all (fun st => st == TaskStatus.completed) = false := by
      rw [← Bool.not_eq_true, List.all_eq_true]
      intro hc
      exact h3 (fun x hx => by simpa using hc x hx)
    rw [hall]
    simp

/-- Witness for C2 at a concrete snapshot. -/
theorem rollup_cases_witness :
    TaskManager.rollup [TaskStatus.completed, TaskStatus.inProgress] = TaskStatus.inProgress :=
  (rollup_cases [TaskStatus.completed, TaskStatus.inProgress]).2.1 (by decide) (by decide)

/-- C4: the rollup recompute branch of `_update_action_status` is a pure
function of the task-status snapshot: it never changes any action's task
list, and applying it a second time to the resulting state writes the same
status again, leaving the store exactly as after the first application. -/
theorem rollup_recompute_pure (s : MState) (id : String) :
    (∀ i, (ActionRepository.findOne (TaskManager.update_action_status s id none).1.db i).map
        ActionDoc.tasks = (ActionRepository.findOne s.db i).map ActionDoc.tasks) ∧
    (TaskManager.update_action_status
        (TaskManager.update_action_status s id none).1 id none).1.db
      = (TaskManager.update_action_status s id none).1.db := by
  cases hfind : ActionRepository.find_action s.db id with
  | error e =>
    have h1 : TaskManager.update_action_status s id none = (s, some e) := by
      unfold TaskManager.update_action_status
      rw [hfind]
    rw [h1]
    exact ⟨fun i => rfl, by rw [h1]⟩
  | ok a =>
    have hfo : ActionRepository.findOne s.db id = some a := by
      unfold ActionRepository.find_action at hfind
      cases hfo : ActionRepository.findOne s.db id with
      | none => rw [hfo] at hfind; cases hfind
      | some b => rw [hfo] at hfind; cases hfind; rfl
    have h1 : TaskManager.update_action_status s id none
        = (TaskManager.writeActionStatus s id
            (TaskManager.rollup (a.tasks.map (fun r => r.status))), none) := by
      unfold TaskManager.update_action_status
      rw [hfind]
    rw [h1]
    unfold TaskManager.writeActionStatus ActionRepository.update_action_status
    dsimp only
    constructor
    · intro i
      exact dbModify_tasks_preserved s.db id
        (fun x => { x with status := TaskManager.rollup (a.tasks.map (fun r => r.status)) })
        (fun x => rfl) i
    · have hfo2 : ActionRepository.findOne
          (ActionRepository.dbModify s.db id
            (fun x => { x with status := TaskManager.rollup (a.tasks.map (fun r => r.status)) })) id
          = some { a with status := TaskManager.rollup (a.tasks.map (fun r => r.status)) } := by
        rw [findOne_dbModify_self, hfo]
        rfl
      have h2 : ActionRepository.find_action
          (ActionRepository.dbModify s.db id
            (fun x => { x with status := TaskManager.rollup (a.tasks.map (fun r => r.status)) })) id
          = Except.ok { a with status := TaskManager.rollup (a.tasks.map (fun r => r.status)) } := by
        unfold ActionRepository.find_action
        rw [hfo2]
      unfold TaskManager.update_action_status
      rw [h2]
      unfold TaskManager.writeActionStatus ActionRepository.update_action_status
      dsimp only
      rw [dbModify_comp]

/-- C5: when no action document exists, `get_action_status` raises the
not-found `ValueError` unchanged; the `except Exception` branch that wraps
other errors into a `RuntimeError` is not taken. -/
theorem get_action_status_not_found (s : MState) (id : String)
    (h : ActionRepository.findOne s.db id = none) :
    TaskManager.get_action_status s id
      = Except.error (PyErr.valueError ("Action " ++ id ++ " not found")) := by
  unfold TaskManager.get_action_status TaskManager.get_action_status_body
    ActionRepository.find_action
  rw [h]

/-- Witness for C5 on the empty store. -/
theorem get_action_status_not_found_witness :
    TaskManager.get_action_status { db := [], tasks := [], clock := 0, trace := [] } "a"
      = Except.error (PyErr.valueError ("Action " ++ "a" ++ " not found")) :=
  get_action_status_not_found { db := [], tasks := [], clock := 0, trace := [] } "a" rfl

/-- C6: `get_mongo_logs` returns the archived lines in stored order, and an
empty list rather than an error when no archive document (or no `logs`
field) exists for the task id. -/
theorem get_mongo_logs_spec (ldb : List (String × LogService.LogDoc)) (tid : String) :
    (dictGet ldb tid = none → LogService.get_mongo_logs ldb tid = []) ∧
    (∀ d, dictGet ldb tid = some d → d.logs = none →
      LogService.get_mongo_logs ldb tid = []) ∧
    (∀ d lines, dictGet ldb tid = some d → d.logs = some lines →
      LogService.get_mongo_logs ldb tid = lines) := by
  refine ⟨fun h => ?_, fun d hd hl => ?_, fun d lines hd hl => ?_⟩
  · unfold LogService.get_mongo_logs
    rw [h]
  · unfold LogService.get_mongo_logs
    rw [hd]
    dsimp only
    rw [hl]
  · unfold LogService.get_mongo_logs
    rw [hd]
    dsimp only
    rw [hl]
    simp

/-- Witness for C6 on the empty archive. -/
theorem get_mongo_logs_spec_witness :
    LogService.get_mongo_logs [] "t" = [] :=
  (get_mongo_logs_spec [] "t").1 rfl

/-- C7: in the read loop, a broker entry carrying a stdout or stderr payload
yields exactly one data event with the payload's type and message and is
acknowledged (its id appears in the acknowledgement list exactly once),
while a priming init entry, or one with no recognised payload, yields no
event and no acknowledgement. Broker entries are quantified over the shapes
this repository appends: the init entry from `_initialize_stream` and the
single-key stdout/stderr entries from the producers. -/
theorem stream_payload_entries_spec (mid : String) (be : LogService.BrokerEntry) :
    ((LogService.hasKey be.toMsg "stdout" = true ∨ LogService.hasKey be.toMsg "stderr" = true) →
      ∃ line, LogService.msgOutput (mid, be.toMsg) = ([LogService.Event.data line], [mid]) ∧
        dictGet be.toMsg line.type = some line.message) ∧
    ((LogService.hasKey be.toMsg "init" = true ∨
        (LogService.hasKey be.toMsg "stdout" = false ∧
         LogService.hasKey be.toMsg "stderr" = false)) →
      LogService.msgOutput (mid, be.toMsg) = ([], [])) := by
  cases be with
  | initEntry =>
    refine ⟨fun h => ?_, fun _ => rfl⟩
    rcases h with h | h <;> exact absurd h (by decide)
  | stdoutLine l =>
    refine ⟨fun _ => ⟨{ type := "stdout", message := l }, rfl, rfl⟩, fun h => ?_⟩
    rcases h with h | h
    · have hf : LogService.hasKey (LogService.BrokerEntry.stdoutLine l).toMsg "init"
          = false := rfl
      rw [hf] at h
      exact absurd h (by decide)
    · have ht : LogService.hasKey (LogService.BrokerEntry.stdoutLine l).toMsg "stdout"
          = true := rfl
      rw [ht] at h
      exact absurd h.1 (by decide)
  | stderrLine l =>
    refine ⟨fun _ => ⟨{ type := "stderr", message := l }, rfl, rfl⟩, fun h => ?_⟩
    rcases h with h | h
    · have hf : LogService.hasKey (LogService.BrokerEntry.stderrLine l).toMsg "init"
          = false := rfl
      rw [hf] at h
      exact absurd h (by decide)
    · have ht : LogService.hasKey (LogService.BrokerEntry.stderrLine l).toMsg "stderr"
          = true := rfl
      rw [ht] at h
      exact absurd h.2 (by decide)

/-- Witness for C7 on a concrete stdout entry. -/
theorem stream_payload_entries_spec_witness :
    ∃ line, LogService.msgOutput ("1-1", (LogService.BrokerEntry.stdoutLine "hello").toMsg)
        = ([LogService.Event.data line], ["1-1"]) ∧
      dictGet (LogService.BrokerEntry.stdoutLine "hello").toMsg line.type
        = some line.message :=
  (stream_payload_entries_spec "1-1" (LogService.BrokerEntry.stdoutLine "hello")).1
    (Or.inl rfl)

theorem msgStep_all_data (ackBeh : String → Except String Unit)
    (p : String × LogService.Msg) :
    ((LogService.msgStep ackBeh p).1.all LogService.Event.isData) = true := by
  unfold LogService.msgStep
  cases LogService.process_message p.2 with
  | none => rfl
  | some line => cases ackBeh p.1 <;> rfl

theorem msgsStep_all_data (ackBeh : String → Except String Unit)
    (ps : List (String × LogService.Msg)) :
    ((LogService.msgsStep ackBeh ps).1.all LogService.Event.isData) = true := by
  induction ps with
  | nil => rfl
  | cons p ps ih =>
    unfold LogService.msgsStep
    rcases hm : LogService.msgStep ackBeh p with ⟨evs, acks, err⟩
    have hevs : evs.all LogService.Event.isData = true := by
      have h1 := msgStep_all_data ackBeh p
      rw [hm] at h1
      exact h1
    cases err with
    | some e => exact hevs
    | none =>
      rcases hr : LogService.msgsStep ackBeh ps with ⟨evs2, acks2, err2⟩
      dsimp only
      have h2 := ih
      rw [hr] at h2
      rw [List.all_append, hevs, h2]
      rfl

theorem entriesStep_all_data (ackBeh : String → Except String Unit)
    (es : LogService.Entries) :
    ((LogService.entriesStep ackBeh es).1.all LogService.Event.isData) = true := by
  induction es with
  | nil => rfl
  | cons sm sms ih =>
    unfold LogService.entriesStep
    rcases hm : LogService.msgsStep ackBeh sm.2 with ⟨evs, acks, err⟩
    have hevs : evs.all LogService.Event.isData = true := by
      have h1 := msgsStep_all_data ackBeh sm.2
      rw [hm] at h1
      exact h1
    cases err with
    | some e => exact hevs
    | none =>
      rcases hr : LogService.entriesStep ackBeh sms with ⟨evs2, acks2, err2⟩
      dsimp only
      have h2 := ih
      rw [hr] at h2
      rw [List.all_append, hevs, h2]
      rfl

/-- Counterexample to C8: the `except` of the read loop also covers the
`xack` issued by `_acknowledge_message`, so an acknowledgement that raises
mid-batch makes one iteration emit a data event for the earlier entry
followed by the terminal error event — two kinds of output in the same
iteration. -/
theorem stream_mixed_iteration_example :
    (LogService.streamStep cexAckBeh (LogService.ReadRes.entries cexEntries)).1
      = [LogService.Event.data { type := "stdout", message := "a" },
         LogService.Event.errorEv "Error reading stream: boom"] ∧
    LogService.oneKind
        (LogService.streamStep cexAckBeh (LogService.ReadRes.entries cexEntries)).1
      = false ∧
    (LogService.streamStep cexAckBeh (LogService.ReadRes.entries cexEntries)).2.2
      = false := by
  refine ⟨?_, ?_, ?_⟩ <;> decide

/-- C8 amended: a broker read error yields one terminal error event and
stops the loop; an empty read yields one heartbeat event and continues; a
non-empty read all of whose acknowledgements succeed yields only data
events and continues; but a non-empty read whose acknowledgement raises
mid-batch yields the data events already emitted followed by the terminal
error event — two kinds of output in one iteration — and stops the loop;
and once an iteration stops the loop, the events of the whole loop are
unchanged by any later reads. -/
theorem stream_iteration_kinds_amended (ackBeh : String → Except String Unit) :
    (∀ e, LogService.streamStep ackBeh (LogService.ReadRes.err e)
        = ([LogService.Event.errorEv ("Error reading stream: " ++ e)], [], false)) ∧
    (LogService.streamStep ackBeh (LogService.ReadRes.entries [])
        = ([LogService.Event.heartbeat], [], true)) ∧
    (∀ es, es ≠ [] → (LogService.entriesStep ackBeh es).2.2 = none →
      (LogService.streamStep ackBeh (LogService.ReadRes.entries es)).1.all
          LogService.Event.isData = true ∧
      (LogService.streamStep ackBeh (LogService.ReadRes.entries es)).2.2 = true) ∧
    (∀ es e, es ≠ [] → (LogService.entriesStep ackBeh es).2.2 = some e →
      (LogService.streamStep ackBeh (LogService.ReadRes.entries es)).1
        = (LogService.entriesStep ackBeh es).1
            ++ [LogService.Event.errorEv ("Error reading stream: " ++ e)] ∧
      (LogService.entriesStep ackBeh es).1.all LogService.Event.isData = true ∧
      (LogService.streamStep ackBeh (LogService.ReadRes.entries es)).2.2 = false) ∧
    (∀ rs1 r rs2, (LogService.streamStep ackBeh r).2.2 = false →
      (LogService.get_redis_logs_loop ackBeh (rs1 ++ r :: rs2)).1
        = (LogService.get_redis_logs_loop ackBeh (rs1 ++ [r])).1) := by
  refine ⟨fun e => rfl, rfl, fun es hne herr => ?_, fun es e hne herr => ?_,
    fun rs1 r rs2 hstop => ?_⟩
  · cases es with
    | nil => exact absurd rfl hne
    | cons hd tlr =>
      have hall := entriesStep_all_data ackBeh (hd :: tlr)
      rcases hes : LogService.entriesStep ackBeh (hd :: tlr) with ⟨evs, acks, err⟩
      rw [hes] at herr hall
      cases err with
      | some e => exact absurd herr (fun h => Option.noConfusion h)
      | none =>
        unfold LogService.streamStep
        dsimp only
        rw [hes]
        exact ⟨hall, rfl⟩
  · cases es with
    | nil => exact absurd rfl hne
    | cons hd tlr =>
      have hall := entriesStep_all_data ackBeh (hd :: tlr)
      rcases hes : LogService.entriesStep ackBeh (hd :: tlr) with ⟨evs, acks, err⟩
      rw [hes] at herr hall
      cases err with
      | none => exact absurd herr (fun h => Option.noConfusion h)
      | some e2 =>
        have he2 : e2 = e := Option.some.inj herr
        subst he2
        unfold LogService.streamStep
        dsimp only
        rw [hes]
        exact ⟨rfl, hall, rfl⟩
  · induction rs1 with
    | nil =>
      rw [List.nil_append, List.nil_append]
      unfold LogService.get_redis_logs_loop
      rcases hstep : LogService.streamStep ackBeh r with ⟨evs, acks, cont⟩
      rw [hstep] at hstop
      cases cont with
      | false => rfl
      | true => exact absurd hstop (fun h => Bool.noConfusion h)
    | cons r1 rs1' ih =>
      rw [List.cons_append, List.cons_append]
      unfold LogService.get_redis_logs_loop
      rcases hstep : LogService.streamStep ackBeh r1 with ⟨evs, acks, cont⟩
      cases cont with
      | false => rfl
      | true =>
        dsimp only
        rw [ih]

/-- Witness for the amended C8 at the concrete mid-batch ack failure. -/
theorem stream_iteration_kinds_amended_witness :
    (LogService.streamStep cexAckBeh (LogService.ReadRes.entries cexEntries)).1
      = (LogService.entriesStep cexAckBeh cexEntries).1
          ++ [LogService.Event.errorEv ("Error reading stream: " ++ "boom")] ∧
    (LogService.entriesStep cexAckBeh cexEntries).1.all
        LogService.Event.isData = true ∧
    (LogService.streamStep cexAckBeh (LogService.ReadRes.entries cexEntries)).2.2
      = false :=
  (stream_iteration_kinds_amended cexAckBeh).2.2.2.1 cexEntries "boom"
    (fun h => List.noConfusion h) (by decide)

theorem dictGet_map_pair (ts : List Task) (t : Task) (hnodup : (ts.map Task.name).Nodup)
    (ht : t ∈ ts) : dictGet (ts.map (fun u => (u.name, u))) t.name = some t := by
  induction ts with
  | nil => exact absurd ht (List.not_mem_nil t)
  | cons u us ih =>
    rw [List.map_cons] at hnodup
    rw [List.map_cons, dictGet_cons]
    rcases List.mem_cons.1 ht with h1 | h1
    · subst h1
      rw [if_pos (by simp)]
    · have hne : (u.name == t.name) = false := by
        simp only [beq_eq_false_iff_ne]
        intro hc
        exact (List.nodup_cons.1 hnodup).1 (by rw [hc]; exact List.mem_map_of_mem _ h1)
      rw [hne]
      rw [if_neg (by decide : ¬(false = true))]
      exact ih (List.nodup_cons.1 hnodup).2 h1

/-- C9: for an unused action id, `create_action` persists an action document
in NOT_STARTED with null times whose task list preserves the given order,
every task record NOT_STARTED with null times, and registers the runtime
task objects under the action id (each retrievable by name when names are
unique). -/
theorem create_action_spec (s : MState) (aid anm : String) (ts : List Task)
    (hfree : dictGet s.db aid = none) :
    ∃ s1, TaskManager.create_action s aid anm ts = (s1, none) ∧
      ActionRepository.findOne s1.db aid = some
        { name := anm, status := TaskStatus.notStarted, start_time := none,
          end_time := none, tasks := ts.map TaskManager.initRecord } ∧
      (∀ r ∈ ts.map TaskManager.initRecord,
        r.status = TaskStatus.notStarted ∧ r.start_time = none ∧ r.end_time = none) ∧
      (ts.map TaskManager.initRecord).map TaskRecord.name = ts.map Task.name ∧
      dictGet s1.tasks aid = some (TaskManager.buildRegistry ts) ∧
      ((ts.map Task.name).Nodup →
        ∀ t ∈ ts, dictGet (TaskManager.buildRegistry ts) t.name = some t) := by
  have hbase := forall_of_dictGet_none s.db aid hfree
  unfold TaskManager.create_action ActionRepository.insert_action
  rw [hfree]
  dsimp only
  refine ⟨_, rfl, findOne_append_singleton s.db aid _ hbase, ?_, ?_, ?_, ?_⟩
  · intro r hr
    rcases List.mem_map.1 hr with ⟨u, hu, rfl⟩
    exact ⟨rfl, rfl, rfl⟩
  · rw [List.map_map]
    rfl
  · exact dictGet_dictSet_self _ _ _
  · intro hnodup t ht
    rw [buildRegistry_eq ts hnodup]
    exact dictGet_map_pair ts t hnodup ht

/-- Witness for C9 on the empty store with one task. -/
theorem create_action_spec_witness :
    ∃ s1, TaskManager.create_action cexState "a" "act" [cexTask1] = (s1, none) ∧
      ActionRepository.findOne s1.db "a" = some
        { name := "act", status := TaskStatus.notStarted, start_time := none,
          end_time := none, tasks := [cexTask1].map TaskManager.initRecord } ∧
      (∀ r ∈ [cexTask1].map TaskManager.initRecord,
        r.status = TaskStatus.notStarted ∧ r.start_time = none ∧ r.end_time = none) ∧
      ([cexTask1].map TaskManager.initRecord).map TaskRecord.name
        = [cexTask1].map Task.name ∧
      dictGet s1.tasks "a" = some (TaskManager.buildRegistry [cexTask1]) ∧
      (([cexTask1].map Task.name).Nodup →
        ∀ t ∈ [cexTask1], dictGet (TaskManager.buildRegistry [cexTask1]) t.name = some t) :=
  create_action_spec cexState "a" "act" [cexTask1] rfl

/-- C10: `Task.run` on a fresh task never propagates the step's exception
(it is total in this embedding, mirroring the catch-all handler); afterwards
the status is exactly COMPLETED or FAILED, and `error_message` is set if and
only if the status is FAILED. -/
theorem task_run_spec (t : Task) (h0 : t.status = TaskStatus.notStarted)
    (h1 : t.error_message = none) :
    ((Task.run t).status = TaskStatus.completed ∨ (Task.run t).status = TaskStatus.failed) ∧
    ((Task.run t).error_message ≠ none ↔ (Task.run t).status = TaskStatus.failed) := by
  unfold Task.run
  dsimp only
  cases hb : t.behavior with
  | ok u =>
    dsimp only
    refine ⟨Or.inl rfl, fun hem => absurd h1 hem, fun hst => absurd hst (by decide)⟩
  | error e =>
    dsimp only
    refine ⟨Or.inr rfl, fun _ => rfl, fun _ => by simp⟩

/-- Witness for C10 on a concrete failing task. -/
theorem task_run_spec_witness :
    ((Task.run wTask2).status = TaskStatus.completed
      ∨ (Task.run wTask2).status = TaskStatus.failed) ∧
    ((Task.run wTask2).error_message ≠ none ↔ (Task.run wTask2).status = TaskStatus.failed) :=
  task_run_spec wTask2 rfl rfl

/-- C1: creating an action with fresh, uniquely named tasks and running it,
where every task before `tk` succeeds and `tk` raises an error with
non-empty text, leaves the persisted document with the earlier tasks
COMPLETED, `tk` FAILED carrying the error text, the later tasks NOT_STARTED,
the action status FAILED, and `end_time` set. -/
theorem run_action_fail_fast
    (s : MState) (aid anm emsg : String) (pre post : List Task) (tk : Task)
    (hfree : dictGet s.db aid = none)
    (hnodup : ((pre ++ tk :: post).map Task.name).Nodup)
    (hpre : ∀ u ∈ pre, u.behavior = Except.ok ())
    (htk : tk.behavior = Except.error emsg)
    (hemsg : emsg ≠ "")
    (hfresh : ∀ u ∈ pre ++ tk :: post, u.error_message = none) :
    ∃ (s2 : MState) (doc2 : ActionDoc),
      TaskManager.run_action (TaskManager.create_action s aid anm (pre ++ tk :: post)).1 aid
        = (s2, none) ∧
      ActionRepository.findOne s2.db aid = some doc2 ∧
      doc2.status = TaskStatus.failed ∧
      doc2.end_time.isSome = true ∧
      doc2.tasks.map projT
        = pre.map (fun u => (u.name, TaskStatus.completed, (none : Option String)))
          ++ (tk.name, TaskStatus.failed, some emsg)
            :: post.map (fun u => (u.name, TaskStatus.notStarted, none)) := by
  obtain ⟨s2, doc2, hrun, hfind, hname, hstatus, hstart, hend, hproj, htrace⟩ :=
    run_action_spec s aid anm (pre ++ tk :: post) hfree hnodup hfresh
  refine ⟨s2, doc2, hrun, hfind, ?_, hend, ?_⟩
  · rw [hstatus, allOk_split pre post tk emsg htk]
    rw [if_neg (by decide : ¬(false = true))]
    exact expStatus_split pre post tk emsg hpre htk _
  · rw [hproj, expProj_split pre post tk emsg hpre htk]
    rw [if_neg (show ¬((emsg == "") = true) by simpa using hemsg)]

/-- Witness for C1 on the spec's example: init succeeds, configure raises
disk full, verify is never run. -/
theorem run_action_fail_fast_witness :
    ∃ (s2 : MState) (doc2 : ActionDoc),
      TaskManager.run_action
          (TaskManager.create_action cexState "a1" "build" ([wTask1] ++ wTask2 :: [wTask3])).1 "a1"
        = (s2, none) ∧
      ActionRepository.findOne s2.db "a1" = some doc2 ∧
      doc2.status = TaskStatus.failed ∧
      doc2.end_time.isSome = true ∧
      doc2.tasks.map projT
        = [wTask1].map (fun u => (u.name, TaskStatus.completed, (none : Option String)))
          ++ (wTask2.name, TaskStatus.failed, some "disk full")
            :: [wTask3].map (fun u => (u.name, TaskStatus.notStarted, none)) :=
  run_action_fail_fast cexState "a1" "build" "disk full" [wTask1] [wTask3] wTask2
    rfl (by decide) (by decide) rfl (by decide) (by decide)

/-- C3 counterexample: in the concrete run of an action with two successful
tasks, the sequence of persisted action-status writes contains IN_PROGRESS
immediately followed by NOT_STARTED (the rollup recompute after the first
task completes while the second is still NOT_STARTED), so the claimed
forward-only motion of persisted statuses is false for the action status. -/
theorem action_status_regress_example :
    chainOk forwardOk (actionWrites cexRun.trace) = false := by decide

/-- C3 (amended): over the writes of one `run_action`, every task's status
sequence moves only forward, and the action status never leaves COMPLETED or
FAILED once written; however the action status may move from IN_PROGRESS
back to NOT_STARTED between tasks, as the counterexample shows. -/
theorem run_action_write_trace_spec
    (s : MState) (aid anm : String) (ts : List Task)
    (hfree : dictGet s.db aid = none)
    (hnodup : (ts.map Task.name).Nodup)
    (hfresh : ∀ u ∈ ts, u.error_message = none)
    (htr : s.trace = []) :
    ∃ (s2 : MState),
      TaskManager.run_action (TaskManager.create_action s aid anm ts).1 aid = (s2, none) ∧
      (∀ n, chainOk forwardOk (taskWrites s2.trace n) = true) ∧
      chainOk terminalOk (actionWrites s2.trace) = true := by
  obtain ⟨s2, doc2, hrun, _, _, _, _, _, _, htrace⟩ :=
    run_action_spec s aid anm ts hfree hnodup hfresh
  rw [htr, List.nil_append] at htrace
  refine ⟨s2, hrun, ?_, ?_⟩
  · intro n
    rw [htrace, taskWrites_append]
    have htail : taskWrites
        (if allOk ts then [WriteEvent.actionW TaskStatus.completed] else []) n = [] := by
      by_cases hall : allOk ts = true
      · rw [if_pos hall]
        rfl
      · rw [if_neg hall]
        rfl
    rw [htail, List.append_nil]
    exact taskWrites_expTrace_chain ts n hnodup
  · rw [htrace, actionWrites_append]
    have htail : actionWrites
        (if allOk ts then [WriteEvent.actionW TaskStatus.completed] else [])
        = (if allOk ts then [TaskStatus.completed] else []) := by
      by_cases hall : allOk ts = true
      · rw [if_pos hall, if_pos hall]
        rfl
      · rw [if_neg hall, if_neg hall]
        rfl
    rw [htail]
    exact actionWrites_chain ts

/-- Witness for the amended C3 on a concrete two-task run. -/
theorem run_action_write_trace_spec_witness :
    ∃ (s2 : MState),
      TaskManager.run_action
          (TaskManager.create_action cexState "a" "act" [cexTask1, cexTask2]).1 "a"
        = (s2, none) ∧
      (∀ n, chainOk forwardOk (taskWrites s2.trace n) = true) ∧
      chainOk terminalOk (actionWrites s2.trace) = true :=
  run_action_write_trace_spec cexState "a" "act" [cexTask1, cexTask2]
    rfl (by decide) (by decide) rfl

end App
